import Mathlib

/-!
# Loggin Genie API: job orchestration and lifecycle

A shallow embedding of `src/api/server.js` (job store, worker invoker, the two
decrypt handlers with their background tasks, the poll / result / delete
handlers) and of the key lookup of `src/api/users.js`, followed by the
properties proved about them.

Modelling conventions.
* JavaScript values are the inductive `JSValue`; objects and `Map`s are
  insertion-ordered association lists with the update-in-place semantics of
  `Map.prototype.set` and of object spread.
* Everything the code obtains from outside the process (`uuidv4()`, the clock,
  the result of each awaited file-system call, the events of the child
  process, `JSON.parse`, `JSON.stringify`) is an explicit input.
* An awaited promise is `none` while pending, `some (.ok v)` when resolved and
  `some (.error message)` when rejected.
-/

namespace LogginGenie

/-! ## JavaScript values -/

/-- A JavaScript number: a finite double (as a rational, with `-0` identified
with `0`), an infinity, or `NaN`. -/
inductive JSNumber where
  | finite (q : Rat)
  | posInf
  | negInf
  | nan

/-- A JavaScript value as it can occur in a job record or a request body. -/
inductive JSValue where
  | undefined
  | null
  | bool (b : Bool)
  | num (n : JSNumber)
  | str (s : String)
  | arr (items : List JSValue)
  | obj (fields : List (String × JSValue))

/-- A JavaScript object: its own enumerable properties in insertion order. -/
abbrev Obj := List (String × JSValue)

/-- ToBoolean on numbers: `0` and `NaN` are falsy. -/
def JSNumber.truthy : JSNumber → Bool
  | .finite q => decide (q ≠ 0)
  | .posInf => true
  | .negInf => true
  | .nan => false

/-- ToBoolean: `undefined`, `null`, `false`, `0`, `NaN` and `''` are falsy,
every other value (every array and object included) is truthy. -/
def JSValue.truthy : JSValue → Bool
  | .undefined => false
  | .null => false
  | .bool b => b
  | .num n => n.truthy
  | .str s => decide (s ≠ "")
  | .arr _ => true
  | .obj _ => true

/-- The value is the string `s` (the test `v === s` against a string literal). -/
def JSValue.isStr (v : JSValue) (s : String) : Bool :=
  match v with
  | .str t => t == s
  | _ => false

/-- The `length` of a JavaScript string: its number of UTF-16 code units. -/
def jsLength (s : String) : Nat :=
  (s.toList.map (fun c => if c.toNat < 65536 then 1 else 2)).sum

/-! ## Insertion-ordered maps (`Map`, object literals, spread) -/

/-- The function `Map.prototype.get` / property lookup. -/
def mapGet {α : Type} (m : List (String × α)) (k : String) : Option α :=
  (m.find? (fun e => e.1 == k)).map Prod.snd

/-- The function `Map.prototype.has`. -/
def mapHas {α : Type} (m : List (String × α)) (k : String) : Bool :=
  m.any (fun e => e.1 == k)

/-- The function `Map.prototype.set`: an existing key keeps its position and
gets the new value, a new key is appended. -/
def mapSet {α : Type} (m : List (String × α)) (k : String) (v : α) : List (String × α) :=
  if mapHas m k then m.map (fun e => if e.1 == k then (k, v) else e)
  else m ++ [(k, v)]

/-- The function `Map.prototype.delete`. -/
def mapDelete {α : Type} (m : List (String × α)) (k : String) : List (String × α) :=
  m.filter (fun e => !(e.1 == k))

/-- Object spread followed by further properties: `{...base, ...extra}`. -/
def spread (base extra : Obj) : Obj :=
  extra.foldl (fun acc e => mapSet acc e.1 e.2) base

/-- Spreading the result of `jobs.get(jobId)`: spreading `undefined` adds no
property. -/
def spreadOpt (base : Option Obj) (extra : Obj) : Obj :=
  spread (base.getD []) extra

/-- Rest destructuring `const { result, ...rest } = o`. -/
def withoutKey (o : Obj) (k : String) : Obj :=
  mapDelete o k

/-! ## Worker invoker (`runPythonDecryption`, server.js 102-135) -/

/-- An event of the child process, in the order the listeners observe them.
A `close` carries the exit code, `none` when the process was ended by a
signal (`code` is `null`). -/
inductive ProcEvent where
  | stdoutData (chunk : String)
  | stderrData (chunk : String)
  | close (code : Option Int)
  | error (message : String)

/-- What `spawn` did: it threw synchronously inside the promise executor, or
it returned a process whose events are then observed. -/
inductive Spawned where
  | threw (message : String)
  | started (events : List ProcEvent)

/-- A settled or pending promise. -/
abbrev Promise (α : Type) := Option (Except String α)

/-- The closure state of one `runPythonDecryption` call. -/
structure Invocation where
  stdout : String
  stderr : String
  settled : Promise (String × String)

/-- The template literal rendering of the exit code: `null` or a decimal. -/
def codeText : Option Int → String
  | none => "null"
  | some c => toString c

/-- The rejection message of the `close` listener. -/
def exitMessage (code : Option Int) (stderr : String) : String :=
  "Python process exited with code " ++ codeText code ++ ": " ++ stderr

/-- The rejection message of the `error` listener. -/
def startMessage (message : String) : String :=
  "Failed to start Python process: " ++ message

/-- Settling a promise that is already settled has no effect. -/
def settle {α : Type} (p : Promise α) (r : Except String α) : Promise α :=
  match p with
  | none => some r
  | some old => some old

/-- One listener call. -/
def onEvent (st : Invocation) : ProcEvent → Invocation
  | .stdoutData chunk => { st with stdout := st.stdout ++ chunk }
  | .stderrData chunk => { st with stderr := st.stderr ++ chunk }
  | .close code =>
      if code = some 0 then
        { st with settled := settle st.settled (.ok (st.stdout, st.stderr)) }
      else
        { st with settled := settle st.settled (.error (exitMessage code st.stderr)) }
  | .error message =>
      { st with settled := settle st.settled (.error (startMessage message)) }

/-- The promise returned by `runPythonDecryption`. -/
def runPythonDecryption : Spawned → Promise (String × String)
  | .threw message => some (.error message)
  | .started events =>
      (events.foldl onEvent { stdout := "", stderr := "", settled := none }).settled

/-! ### The event-level reading of the worker contract -/

/-- A terminating event: `close` or `error`. -/
def ProcEvent.terminating : ProcEvent → Bool
  | .close _ => true
  | .error _ => true
  | _ => false

/-- The text written to standard output by a run of events. -/
def stdoutOf : List ProcEvent → String
  | [] => ""
  | .stdoutData chunk :: rest => chunk ++ stdoutOf rest
  | _ :: rest => stdoutOf rest

/-- The text written to standard error by a run of events. -/
def stderrOf : List ProcEvent → String
  | [] => ""
  | .stderrData chunk :: rest => chunk ++ stderrOf rest
  | _ :: rest => stderrOf rest

/-- The events before the first terminating one. -/
def beforeTermination (events : List ProcEvent) : List ProcEvent :=
  events.takeWhile (fun e => !e.terminating)

/-- The first terminating event, if any. -/
def firstTermination (events : List ProcEvent) : Option ProcEvent :=
  events.find? ProcEvent.terminating

/-- The worker contract read off the events: pending without a terminating
event, otherwise decided by the first one and the output captured before it. -/
def workerContract (events : List ProcEvent) : Promise (String × String) :=
  match firstTermination events with
  | none => none
  | some (.close code) =>
      if code = some 0 then
        some (.ok (stdoutOf (beforeTermination events), stderrOf (beforeTermination events)))
      else
        some (.error (exitMessage code (stderrOf (beforeTermination events))))
  | some (.error message) => some (.error (startMessage message))
  | some _ => none

/-! ## User profiles (`users.js`) -/

/-- A record of the in-memory user store. `encryptionKey` is `none` when the
property is `null` or missing (users made by `createUser` have none). -/
structure User where
  username : String
  passwordHash : String
  role : String
  encryptionKey : Option String
  createdAt : String
  updatedAt : Option String

/-- The user store: a `Map` from username to user record. -/
abbrev UserStore := List (String × User)

/-- The function `getEncryptionKey`: `user?.encryptionKey || null`. -/
def getEncryptionKey (users : UserStore) (username : String) : Option String :=
  match mapGet users username with
  | none => none
  | some user =>
      match user.encryptionKey with
      | none => none
      | some key => if key = "" then none else some key

/-- The function `updateEncryptionKey`; `none` when it throws `User not found`. -/
def updateEncryptionKey (users : UserStore) (username : String) (encryptionKey : Option String)
    (now : String) : Option UserStore :=
  match mapGet users username with
  | none => none
  | some user =>
      some (mapSet users username
        { user with encryptionKey := encryptionKey, updatedAt := some now })

/-! ## Strings -/

/-- The characters removed by `String.prototype.trim`: the ECMAScript
WhiteSpace and LineTerminator code points. -/
def isJSWhiteSpace (c : Char) : Bool :=
  let n := c.toNat
  n == 9 || n == 10 || n == 11 || n == 12 || n == 13 || n == 32 || n == 160 ||
  n == 0x1680 || (0x2000 ≤ n && n ≤ 0x200A) || n == 0x2028 || n == 0x2029 ||
  n == 0x202F || n == 0x205F || n == 0x3000 || n == 0xFEFF

/-- The method `String.prototype.trim`. -/
def jsTrim (s : String) : String :=
  String.mk ((s.toList.dropWhile isJSWhiteSpace).reverse.dropWhile isJSWhiteSpace).reverse

/-- The test `!encryptionKey || encryptionKey.trim() === ''` of both create
handlers, on the validated (string or missing) request key. -/
def keyMissing : Option String → Bool
  | none => true
  | some key => key == "" || jsTrim key == ""

/-! ## Request validation (the Joi schemas, server.js 80-99)

Joi is an external library. The schema declarations are those of the source;
the meaning of each rule follows Joi's documented defaults: keys are checked
in schema order and the first error ends validation, a missing optional key
is accepted, `string()` rejects the empty string unless `allow('')` is given,
`valid(...)` admits only the listed values, and a key the schema does not
declare is an error. No property below depends on the text of a message. -/

/-- The parts of Joi the schemas rely on that are not modelled here. -/
structure JoiLib where
  /-- The rule `string().uri()`. -/
  isUri : String → Bool
  /-- The conversion of a numeric string by `number()`. -/
  toNumber : String → Option JSNumber
  /-- The conversion of a JSON text by `object()`. -/
  toObject : String → Option Obj

/-- The algorithm enumeration of both schemas. -/
def algorithms : List String :=
  ["AES-256-CBC", "AES-128-CBC", "AES-256-GCM", "AES-128-GCM"]

/-- Joi's rendering of a list of allowed values. -/
def joinValues (values : List String) : String :=
  ", ".intercalate values

/-- A key of a Joi object schema restricted by `string().valid(...)` with a
default: a missing value takes the default, any value outside the list is an
error. -/
def joiValid (label : String) (values : List String) (dflt : String) :
    Option JSValue → Except String String
  | none => .ok dflt
  | some .undefined => .ok dflt
  | some (.str s) =>
      if s ∈ values then .ok s
      else .error ("\"" ++ label ++ "\" must be one of [" ++ joinValues values ++ "]")
  | some _ => .error ("\"" ++ label ++ "\" must be one of [" ++ joinValues values ++ "]")

/-- A key declared `string()`: a missing value is accepted (and stays
missing), the empty string only with `allow('')`, any other string always,
and no other type. -/
def joiString (label : String) (allowEmpty : Bool) :
    Option JSValue → Except String (Option String)
  | none => .ok none
  | some .undefined => .ok none
  | some (.str s) =>
      if s = "" then
        if allowEmpty then .ok (some s)
        else .error ("\"" ++ label ++ "\" is not allowed to be empty")
      else .ok (some s)
  | some _ => .error ("\"" ++ label ++ "\" must be a string")

/-- A key declared `string().default(d)`. -/
def joiStringDefault (label : String) (dflt : String) (v : Option JSValue) :
    Except String String :=
  (joiString label false v).map (fun r => r.getD dflt)

/-- A key declared `string().required()`. -/
def joiStringRequired (label : String) (v : Option JSValue) : Except String String :=
  match joiString label false v with
  | .error e => .error e
  | .ok none => .error ("\"" ++ label ++ "\" is required")
  | .ok (some s) => .ok s

/-- The first key of the body that the schema does not declare. -/
def unknownKey (known : List String) (body : Obj) : Option String :=
  (body.find? (fun e => !(known.contains e.1))).map Prod.fst

/-- The validated value of `decryptFileSchema`. -/
structure FileValue where
  encryptionKey : Option String
  algorithm : String
  field : String
  outputFormat : String

/-- The call `decryptFileSchema.validate(req.body)`: the first error message, or the
value with defaults applied. The body parsers (multer, `express.json`) always
set `req.body` to an object or an array. -/
def decryptFileSchema (body : JSValue) : Except String FileValue :=
  match body with
  | .obj fields => do
      let encryptionKey ← joiString "encryptionKey" true (mapGet fields "encryptionKey")
      let algorithm ← joiValid "algorithm" algorithms "AES-256-CBC" (mapGet fields "algorithm")
      let field ← joiStringDefault "field" "message" (mapGet fields "field")
      let outputFormat ← joiValid "outputFormat" ["json", "text", "table"] "json"
        (mapGet fields "outputFormat")
      match unknownKey ["encryptionKey", "algorithm", "field", "outputFormat"] fields with
      | some key => .error ("\"" ++ key ++ "\" is not allowed")
      | none => .ok { encryptionKey, algorithm, field, outputFormat }
  | _ => .error "\"value\" must be of type object"

/-- The key `size`: `number().integer().min(1).max(10000).default(100)`. -/
def joiSize (joi : JoiLib) : Option JSValue → Except String Nat
  | none => .ok 100
  | some .undefined => .ok 100
  | some (.num n) => check n
  | some (.str s) =>
      match joi.toNumber s with
      | some n => check n
      | none => .error "\"size\" must be a number"
  | some _ => .error "\"size\" must be a number"
where
  /-- The rules on a number. -/
  check : JSNumber → Except String Nat
    | .finite q =>
        if 9007199254740991 < |q| then .error "\"size\" must be a safe number"
        else if q.den ≠ 1 then .error "\"size\" must be an integer"
        else if q < 1 then .error "\"size\" must be greater than or equal to 1"
        else if 10000 < q then .error "\"size\" must be less than or equal to 10000"
        else .ok q.num.toNat
    | .nan => .error "\"size\" must be a number"
    | _ => .error "\"size\" cannot be infinity"

/-- The key `query`: `object().optional()`. -/
def joiObject (joi : JoiLib) : Option JSValue → Except String (Option Obj)
  | none => .ok none
  | some .undefined => .ok none
  | some (.obj fields) => .ok (some fields)
  | some (.str s) =>
      match joi.toObject s with
      | some fields => .ok (some fields)
      | none => .error "\"query\" must be of type object"
  | some _ => .error "\"query\" must be of type object"

/-- The validated value of `decryptKibanaSchema`. -/
structure KibanaValue where
  elasticsearchUrl : String
  index : String
  encryptionKey : Option String
  algorithm : String
  field : String
  query : Option Obj
  size : Nat
  username : Option String
  password : Option String
  apiKey : Option String
  outputFormat : String

/-- The call `decryptKibanaSchema.validate(req.body)`. -/
def decryptKibanaSchema (joi : JoiLib) (body : JSValue) : Except String KibanaValue :=
  match body with
  | .obj fields => do
      let elasticsearchUrl ← joiStringRequired "elasticsearchUrl" (mapGet fields "elasticsearchUrl")
      if !joi.isUri elasticsearchUrl then
        .error "\"elasticsearchUrl\" must be a valid uri"
      let index ← joiStringRequired "index" (mapGet fields "index")
      let encryptionKey ← joiString "encryptionKey" true (mapGet fields "encryptionKey")
      let algorithm ← joiValid "algorithm" algorithms "AES-256-CBC" (mapGet fields "algorithm")
      let field ← joiStringDefault "field" "message" (mapGet fields "field")
      let query ← joiObject joi (mapGet fields "query")
      let size ← joiSize joi (mapGet fields "size")
      let username ← joiString "username" false (mapGet fields "username")
      let password ← joiString "password" false (mapGet fields "password")
      let apiKey ← joiString "apiKey" false (mapGet fields "apiKey")
      let outputFormat ← joiValid "outputFormat" ["json", "text"] "json"
        (mapGet fields "outputFormat")
      match unknownKey ["elasticsearchUrl", "index", "encryptionKey", "algorithm", "field",
          "query", "size", "username", "password", "apiKey", "outputFormat"] fields with
      | some key => .error ("\"" ++ key ++ "\" is not allowed")
      | none => .ok { elasticsearchUrl, index, encryptionKey, algorithm, field, query, size,
                      username, password, apiKey, outputFormat }
  | _ => .error "\"value\" must be of type object"

/-! ## Job store and HTTP responses -/

/-- The job store `jobs`: a `Map` from job id to job record. -/
abbrev JobStore := List (String × Obj)

/-- What a handler sends: the status code (200 unless `res.status` was
called) and the value given to `res.json`. -/
structure Response where
  status : Nat
  body : JSValue

/-- The response `res.status(code).json({ error: message })`. -/
def errorResponse (code : Nat) (message : String) : Response :=
  { status := code, body := .obj [("error", .str message)] }

/-- The message of the rejection for a request without a usable key. -/
def noKeyMessage : String :=
  "No encryption key provided and no key stored in profile. Please provide a key or save one in your profile."

/-- The response of a create handler that started a job. -/
def startedResponse (jobId : String) : Response :=
  { status := 200,
    body := .obj [("jobId", .str jobId), ("status", .str "processing"),
                  ("message", .str "Decryption job started"),
                  ("statusUrl", .str ("/api/jobs/" ++ jobId))] }

/-- The path `path.join(__dirname, 'output', jobId + '.json')`, for a
normalised `__dirname` and a job id without path separators (a UUID). -/
def outputPath (dirname jobId : String) : String :=
  dirname ++ "/output/" ++ jobId ++ ".json"

/-- The path `path.join(__dirname, 'output')`. -/
def outputDir (dirname : String) : String :=
  dirname ++ "/output"

/-! ## Background tasks -/

/-- The variables captured by the background task of `POST /api/decrypt/file`. -/
structure FileTask where
  jobId : String
  filePath : String
  encryptionKey : String
  algorithm : String
  field : String
  outputFormat : String

/-- The variables captured by the background task of `POST /api/decrypt/kibana`. -/
structure KibanaTask where
  jobId : String
  encryptionKey : String
  value : KibanaValue

/-- A background task of either handler. -/
inductive Task where
  | file (t : FileTask)
  | kibana (t : KibanaTask)

/-- The job a task belongs to. -/
def Task.jobId : Task → String
  | .file t => t.jobId
  | .kibana t => t.jobId

/-- What a background task meets while it runs: the outcome of each awaited
call as a function of its arguments, the two JSON built-ins and the clock. -/
structure TaskEnv where
  dirname : String
  mkdir : String → Except String Unit
  spawn : List String → Spawned
  readFile : String → Except String String
  jsonParse : String → Except String JSValue
  jsonStringify : JSValue → String
  unlink : String → Except String Unit
  now : String

/-- A write `jobs.set(jobId, { ...jobs.get(jobId), ...fields })`. -/
structure JobWrite where
  jobId : String
  fields : Obj

/-- Performing a write on the store. -/
def JobWrite.apply (jobs : JobStore) (w : JobWrite) : JobStore :=
  mapSet jobs w.jobId (spreadOpt (mapGet jobs w.jobId) w.fields)

/-- How a block of statements ended. -/
inductive Flow where
  | done
  | threw (message : String)
  | pending

/-- The write of the `try` block (server.js 359-365, 471-477). -/
def completedWrite (jobId now : String) (result : JSValue) : JobWrite :=
  { jobId := jobId,
    fields := [("status", .str "completed"), ("completedAt", .str now), ("result", result),
               ("downloadUrl", .str ("/api/jobs/" ++ jobId ++ "/download"))] }

/-- The write of the `catch` block (server.js 371-376, 480-485). -/
def failedWrite (jobId now : String) (message : String) : JobWrite :=
  { jobId := jobId,
    fields := [("status", .str "failed"), ("error", .str message), ("completedAt", .str now)] }

/-- The expression `outputFormat === 'json' ? JSON.parse(decryptedData) : decryptedData`. -/
def readResult (env : TaskEnv) (outputFormat decryptedData : String) : Except String JSValue :=
  if outputFormat = "json" then env.jsonParse decryptedData else .ok (.str decryptedData)

/-- The argument list of the file task (server.js 344-351). -/
def fileArgs (dirname : String) (t : FileTask) : List String :=
  ["--file", t.filePath,
   "--key", t.encryptionKey,
   "--algorithm", t.algorithm,
   "--field", t.field,
   "--format", t.outputFormat,
   "--output", outputPath dirname t.jobId]

/-- The argument list of the Kibana task (server.js 449-463). -/
def kibanaArgs (dirname : String) (stringify : JSValue → String) (t : KibanaTask) : List String :=
  let args := ["--elasticsearch-url", t.value.elasticsearchUrl,
               "--index", t.value.index,
               "--key", t.encryptionKey,
               "--algorithm", t.value.algorithm,
               "--field", t.value.field,
               "--size", toString t.value.size,
               "--format", t.value.outputFormat,
               "--output", outputPath dirname t.jobId]
  let args := match t.value.username with
    | some username => if username = "" then args else args ++ ["--username", username]
    | none => args
  let args := match t.value.password with
    | some password => if password = "" then args else args ++ ["--password", password]
    | none => args
  let args := match t.value.apiKey with
    | some apiKey => if apiKey = "" then args else args ++ ["--api-key", apiKey]
    | none => args
  match t.value.query with
  | some query => args ++ ["--query", stringify (.obj query)]
  | none => args

/-- The statements shared by both `try` blocks from the worker call on: the
writes performed and how the block ended. -/
def awaitWorker (env : TaskEnv) (jobId outputFormat : String) (args : List String) :
    List JobWrite × Flow :=
  match runPythonDecryption (env.spawn args) with
  | none => ([], .pending)
  | some (.error message) => ([], .threw message)
  | some (.ok _) =>
      match env.readFile (outputPath env.dirname jobId) with
      | .error message => ([], .threw message)
      | .ok decryptedData =>
          match readResult env outputFormat decryptedData with
          | .error message => ([], .threw message)
          | .ok result => ([completedWrite jobId env.now result], .done)

/-- The `try` block of the file task (server.js 340-368). The final
`await fs.unlink(...).catch(() => {})` resolves whatever `unlink` does. -/
def fileTaskTry (env : TaskEnv) (t : FileTask) : List JobWrite × Flow :=
  match env.mkdir (outputDir env.dirname) with
  | .error message => ([], .threw message)
  | .ok _ =>
      match awaitWorker env t.jobId t.outputFormat (fileArgs env.dirname t) with
      | (writes, .done) =>
          match env.unlink t.filePath with
          | .ok _ => (writes, .done)
          | .error _ => (writes, .done)
      | r => r

/-- The `try` block of the Kibana task (server.js 445-477). -/
def kibanaTaskTry (env : TaskEnv) (t : KibanaTask) : List JobWrite × Flow :=
  match env.mkdir (outputDir env.dirname) with
  | .error message => ([], .threw message)
  | .ok _ =>
      awaitWorker env t.jobId t.value.outputFormat (kibanaArgs env.dirname env.jsonStringify t)

/-- The `try` block of a task. -/
def Task.tryBlock (env : TaskEnv) : Task → List JobWrite × Flow
  | .file t => fileTaskTry env t
  | .kibana t => kibanaTaskTry env t

/-- A whole background task (`try` and `catch`): the writes it performs, in
order, and whether it has run to its end. The `catch` block runs exactly when
the `try` block threw, after the writes the `try` block had performed. -/
def Task.run (env : TaskEnv) (task : Task) : List JobWrite × Bool :=
  match task.tryBlock env with
  | (writes, .done) => (writes, true)
  | (writes, .threw message) => (writes ++ [failedWrite task.jobId env.now message], true)
  | (writes, .pending) => (writes, false)

/-- The writes of a background task. -/
def Task.writes (env : TaskEnv) (task : Task) : List JobWrite :=
  (task.run env).1

/-! ## Create handlers -/

/-- The upload `req.file` left by multer. -/
structure UploadedFile where
  path : String
  originalname : String

/-- A request to `POST /api/decrypt/file` as the handler receives it. -/
structure FileRequest where
  username : String
  file : Option UploadedFile
  body : JSValue

/-- A request to `POST /api/decrypt/kibana` as the handler receives it. -/
structure KibanaRequest where
  username : String
  body : JSValue

/-- What a create handler has done when it returns. -/
structure Created where
  response : Response
  jobs : JobStore
  task : Option Task

/-- The handler of `POST /api/decrypt/file` (server.js 294-389), with `jobId` the
value of `uuidv4()` and `now` the clock. -/
def postDecryptFile (users : UserStore) (jobs : JobStore) (jobId now : String)
    (req : FileRequest) : Created :=
  match req.file with
  | none => { response := errorResponse 400 "No file uploaded", jobs := jobs, task := none }
  | some file =>
      match decryptFileSchema req.body with
      | .error message => { response := errorResponse 400 message, jobs := jobs, task := none }
      | .ok value =>
          let resolved : Option String :=
            if keyMissing value.encryptionKey then getEncryptionKey users req.username
            else value.encryptionKey
          match resolved with
          | none => { response := errorResponse 400 noKeyMessage, jobs := jobs, task := none }
          | some encryptionKey =>
              { response := startedResponse jobId,
                jobs := mapSet jobs jobId
                  [("id", .str jobId), ("status", .str "processing"),
                   ("createdAt", .str now), ("fileName", .str file.originalname)],
                task := some (.file
                  { jobId := jobId, filePath := file.path, encryptionKey := encryptionKey,
                    algorithm := value.algorithm, field := value.field,
                    outputFormat := value.outputFormat }) }

/-- The handler of `POST /api/decrypt/kibana` (server.js 392-492). -/
def postDecryptKibana (joi : JoiLib) (users : UserStore) (jobs : JobStore) (jobId now : String)
    (req : KibanaRequest) : Created :=
  match decryptKibanaSchema joi req.body with
  | .error message => { response := errorResponse 400 message, jobs := jobs, task := none }
  | .ok value =>
      let resolved : Option String :=
        if keyMissing value.encryptionKey then getEncryptionKey users req.username
        else value.encryptionKey
      match resolved with
      | none => { response := errorResponse 400 noKeyMessage, jobs := jobs, task := none }
      | some encryptionKey =>
          { response := startedResponse jobId,
            jobs := mapSet jobs jobId
              [("id", .str jobId), ("status", .str "processing"),
               ("createdAt", .str now), ("source", .str "kibana"),
               ("index", .str value.index)],
            task := some (.kibana
              { jobId := jobId, encryptionKey := encryptionKey, value := value }) }

/-! ## Read and delete handlers -/

/-- The handler of `GET /api/jobs/:jobId` (server.js 495-511). -/
def getJob (stringify : JSValue → String) (jobs : JobStore) (jobId : String) : Response :=
  match mapGet jobs jobId with
  | none => errorResponse 404 "Job not found"
  | some job =>
      let result := (mapGet job "result").getD .undefined
      let jobMetadata := withoutKey job "result"
      { status := 200,
        body := .obj (spread jobMetadata
          [("hasResult", .bool result.truthy),
           ("resultSize", .num (.finite
              (if result.truthy then (jsLength (stringify result) : Rat) else 0)))]) }

/-- The handler of `GET /api/jobs/:jobId/result` (server.js 514-530). -/
def getJobResult (jobs : JobStore) (jobId : String) : Response :=
  match mapGet jobs jobId with
  | none => errorResponse 404 "Job not found"
  | some job =>
      let status := (mapGet job "status").getD .undefined
      if !status.isStr "completed" then
        { status := 400,
          body := .obj [("error", .str "Job not completed"), ("status", status)] }
      else
        { status := 200, body := (mapGet job "result").getD .undefined }

/-- The handler of `GET /api/jobs` (server.js 559-569). -/
def listJobs (jobs : JobStore) : Response :=
  let allJobs := jobs.map (fun e => JSValue.obj (withoutKey e.2 "result"))
  { status := 200,
    body := .obj [("total", .num (.finite (allJobs.length : Rat))), ("jobs", .arr allJobs)] }

/-- The handler of `DELETE /api/jobs/:jobId` up to its `await`: the 404 response when
the lookup finds nothing, `none` when the handler goes on. -/
def deleteJobLookup (jobs : JobStore) (jobId : String) : Option Response :=
  match mapGet jobs jobId with
  | none => some (errorResponse 404 "Job not found")
  | some _ => none

/-- The handler of `DELETE /api/jobs/:jobId` after `await fs.unlink(...)` (whose
rejection is swallowed), on the store as it is then. -/
def deleteJobCommit (jobs : JobStore) (jobId : String) : Response × JobStore :=
  ({ status := 200, body := .obj [("message", .str "Job deleted successfully")] },
   mapDelete jobs jobId)

/-- The handler of `DELETE /api/jobs/:jobId` (server.js 572-588) when nothing else runs
during its `await`. -/
def deleteJob (jobs : JobStore) (jobId : String) : Response × JobStore :=
  match deleteJobLookup jobs jobId with
  | some response => (response, jobs)
  | none => deleteJobCommit jobs jobId

/-! ## The service as a transition system -/

/-- The state of the process: both stores, the background tasks in flight,
the `DELETE` handlers suspended at their `await`, and every job id `uuidv4()`
has returned so far. -/
structure Sys where
  users : UserStore
  jobs : JobStore
  tasks : List Task
  deleting : List String
  issued : List String

/-- The state at start-up: no job, nothing in flight. -/
def Sys.init (users : UserStore) : Sys :=
  { users := users, jobs := [], tasks := [], deleting := [], issued := [] }

/-- An atomic step of the process: what runs between two `await`s. -/
inductive Action where
  | createFile (jobId now : String) (req : FileRequest)
  | createKibana (jobId now : String) (req : KibanaRequest)
  | taskEnds (jobId : String) (env : TaskEnv)
  | deleteLookup (jobId : String)
  | deleteCommit (jobId : String)
  | updateKey (username : String) (encryptionKey : Option String) (now : String)

/-- The state after a create handler has run. -/
def Sys.afterCreate (s : Sys) (jobId : String) (c : Created) : Sys :=
  { s with jobs := c.jobs, tasks := s.tasks ++ c.task.toList, issued := jobId :: s.issued }

/-- One step. `none` when the step cannot happen: `uuidv4()` never returns an
id twice, only a task in flight can end, and only a suspended `DELETE` handler can
resume. A task whose worker has not terminated performs no write and stays
in flight. -/
def step (joi : JoiLib) (s : Sys) : Action → Option Sys
  | .createFile jobId now req =>
      if jobId ∈ s.issued then none
      else some (s.afterCreate jobId (postDecryptFile s.users s.jobs jobId now req))
  | .createKibana jobId now req =>
      if jobId ∈ s.issued then none
      else some (s.afterCreate jobId (postDecryptKibana joi s.users s.jobs jobId now req))
  | .taskEnds jobId env =>
      match s.tasks.find? (fun t => t.jobId == jobId) with
      | none => none
      | some task =>
          match task.run env with
          | (writes, true) =>
              some { s with jobs := writes.foldl JobWrite.apply s.jobs,
                            tasks := s.tasks.filter (fun t => !(t.jobId == jobId)) }
          | (writes, false) => some { s with jobs := writes.foldl JobWrite.apply s.jobs }
  | .deleteLookup jobId =>
      match deleteJobLookup s.jobs jobId with
      | some _ => some s
      | none => some { s with deleting := jobId :: s.deleting }
  | .deleteCommit jobId =>
      if jobId ∈ s.deleting then
        some { s with jobs := (deleteJobCommit s.jobs jobId).2,
                      deleting := s.deleting.erase jobId }
      else none
  | .updateKey username encryptionKey now =>
      match updateEncryptionKey s.users username encryptionKey now with
      | none => some s
      | some users => some { s with users := users }

/-- A run: the steps in order. -/
def run (joi : JoiLib) (s : Sys) : List Action → Option Sys
  | [] => some s
  | a :: rest =>
      match step joi s a with
      | none => none
      | some s' => run joi s' rest

/-! ## Predicates on job records -/

/-- The record has the property `k`. -/
def hasField (job : Obj) (k : String) : Bool :=
  mapHas job k

/-- The status of the record is the string `status`. -/
def hasStatus (job : Obj) (status : String) : Bool :=
  match mapGet job "status" with
  | some v => v.isStr status
  | none => false

/-- The data-model invariant on one record: no result and no error while
processing, a result and no error when completed, an error and no result
when failed. -/
def recordOk (job : Obj) : Bool :=
  (!hasStatus job "processing" || (!hasField job "result" && !hasField job "error")) &&
  (!hasStatus job "completed" || (hasField job "result" && !hasField job "error")) &&
  (!hasStatus job "failed" || (hasField job "error" && !hasField job "result"))

/-- The record is in a terminal state. -/
def isTerminal (job : Obj) : Bool :=
  hasStatus job "completed" || hasStatus job "failed"

/-- The argument list the task gives to the worker. -/
def Task.args (env : TaskEnv) : Task → List String
  | .file t => fileArgs env.dirname t
  | .kibana t => kibanaArgs env.dirname env.jsonStringify t

/-- The task runs to its end: `mkdir` rejects or the worker promise settles. -/
def Task.ends (env : TaskEnv) (task : Task) : Bool :=
  match env.mkdir (outputDir env.dirname) with
  | .error _ => true
  | .ok _ => (runPythonDecryption (env.spawn (task.args env))).isSome

/-- The output format the task was created with. -/
def Task.outputFormat : Task → String
  | .file t => t.outputFormat
  | .kibana t => t.value.outputFormat

/-- The record is a `processing` one without result and without error. -/
def noOutcome (job : Obj) : Bool :=
  hasStatus job "processing" && !hasField job "result" && !hasField job "error"

/-- The invariant of the transition system: every stored record satisfies
the data-model invariant, every stored id has been issued, the record of a
task in flight is absent or still a bare `processing` one, and no two tasks in
flight belong to the same job. -/
structure Inv (s : Sys) : Prop where
  records : ∀ e ∈ s.jobs, recordOk e.2 = true
  keys : ∀ e ∈ s.jobs, e.1 ∈ s.issued
  inflight : ∀ t ∈ s.tasks, t.jobId ∈ s.issued ∧ ∀ e ∈ s.jobs, e.1 = t.jobId → noOutcome e.2 = true
  distinct : (s.tasks.map Task.jobId).Nodup

/-- The value the flat `--flag value` list gives for a flag. -/
def argValue : List String → String → Option String
  | name :: value :: rest, flag => if name = flag then some value else argValue rest flag
  | _, _ => none

/-- The key policy of the specification, on what a create handler has done
for a validated request with explicit key `explicit` and profile key
`stored`: a non-blank explicit key is the value of `--key`; otherwise the
stored key is; with neither, the request is rejected with status 400 and the
store is left as it was. -/
def keyPolicy (explicit stored : Option String) (jobs : JobStore) (env : TaskEnv)
    (c : Created) : Prop :=
  (∀ key, explicit = some key → jsTrim key ≠ "" →
    ∃ task, c.task = some task ∧ argValue (task.args env) "--key" = some key) ∧
  ((explicit = none ∨ ∃ key, explicit = some key ∧ jsTrim key = "") →
    (∀ key, stored = some key →
      ∃ task, c.task = some task ∧ argValue (task.args env) "--key" = some key) ∧
    (stored = none →
      c.response = errorResponse 400 noKeyMessage ∧ c.jobs = jobs ∧ c.task = none))

/-- The two outcomes of a create request on the store `jobs`: a synchronous
400 rejection that carries an error text only, starts nothing and leaves the
store as it was; or the `processing` response for `jobId`, with the store
extended by one `processing` record under `jobId` which a poll reports at
once. -/
def createOutcome (stringify : JSValue → String) (jobs : JobStore) (jobId : String)
    (c : Created) : Prop :=
  (∃ message, c.response = errorResponse 400 message ∧ c.jobs = jobs ∧ c.task = none) ∨
  (∃ record task,
    c.response = startedResponse jobId ∧ c.task = some task ∧ task.jobId = jobId ∧
    c.jobs = mapSet jobs jobId record ∧
    mapGet record "id" = some (.str jobId) ∧
    mapGet record "status" = some (.str "processing") ∧
    mapGet c.jobs jobId = some record ∧
    (∀ other, other ≠ jobId → mapGet c.jobs other = mapGet jobs other) ∧
    (mapGet jobs jobId = none → c.jobs = jobs ++ [(jobId, record)]) ∧
    ∃ fields, getJob stringify c.jobs jobId = { status := 200, body := .obj fields } ∧
      mapGet fields "status" = some (.str "processing"))

/-! ## What polls observe along a run -/

/-- The status a poll of `jobId` finds in the store of state `s`: the `status`
property of the record, `none` when there is no record (the poll answers 404). -/
def statusAt (s : Sys) (jobId : String) : Option JSValue :=
  match mapGet s.jobs jobId with
  | none => none
  | some job => mapGet job "status"

/-- The states the service passes through: the state after each step, for as
long as the steps can happen. -/
def visited (joi : JoiLib) (s : Sys) : List Action → List Sys
  | [] => []
  | a :: rest =>
      match step joi s a with
      | none => []
      | some s' => s' :: visited joi s' rest

/-- The statuses observed for `jobId` over a run, in order: what a poll after
each step reports, the polls that find no record left out. -/
def observed (joi : JoiLib) (s : Sys) (actions : List Action) (jobId : String) : List JSValue :=
  (visited joi s actions).filterMap (fun s' => statusAt s' jobId)

/-! ## Profiles (`users.js` 123-155, server.js 243-273)

JavaScript indexes a string by UTF-16 unit. On strings of the Basic
Multilingual Plane, to which every key the `PUT` handler stores belongs (it
admits hexadecimal digits only), units and characters coincide, and
`substring` is modelled on characters. -/

/-- The user record as the object `getUserProfile` destructures, in the property
order of the store's initial record. A missing `encryptionKey` reads as `null`
(both are falsy and the property is left out of the profile either way). -/
def User.toObj (user : User) : Obj :=
  [("username", .str user.username), ("passwordHash", .str user.passwordHash),
   ("role", .str user.role),
   ("encryptionKey", match user.encryptionKey with
      | some key => .str key
      | none => .null),
   ("createdAt", .str user.createdAt)] ++
  (match user.updatedAt with
   | some updatedAt => [("updatedAt", .str updatedAt)]
   | none => [])

/-- The function `getRedactedKey`; `none` is its `null`. The length is counted in
UTF-16 units as in the source; `substring` is cut by character, which is the
same cut on every string without characters beyond U+FFFF, hexadecimal keys
in particular, and differs from the source on other strings. -/
def getRedactedKey : Option String → Option String
  | none => none
  | some encryptionKey =>
      if encryptionKey = "" ∨ jsLength encryptionKey < 12 then none
      else
        let first := String.mk (encryptionKey.toList.take 8)
        let last := String.mk (encryptionKey.toList.drop (jsLength encryptionKey - 4))
        let middle := String.mk (List.replicate (min 32 (jsLength encryptionKey - 12)) '*')
        some (first ++ middle ++ last)

/-- The function `getUserProfile`; `none` is its `null`. -/
def getUserProfile (users : UserStore) (username : String) : Option Obj :=
  match mapGet users username with
  | none => none
  | some user =>
      let profile := withoutKey (withoutKey user.toObj "passwordHash") "encryptionKey"
      let truthy : Bool := match user.encryptionKey with
        | some key => decide (key ≠ "")
        | none => false
      some (spread profile
        [("hasEncryptionKey", .bool truthy),
         ("encryptionKeyRedacted",
            if truthy then
              match getRedactedKey user.encryptionKey with
              | some redacted => .str redacted
              | none => .null
            else .null)])

/-- A hexadecimal digit, as in the pattern `/^[0-9a-fA-F]+$/`. -/
def isHexDigit (c : Char) : Bool :=
  ('0' ≤ c && c ≤ '9') || ('a' ≤ c && c ≤ 'f') || ('A' ≤ c && c ≤ 'F')

/-- The test `hexPattern.test(encryptionKey)`: one or more hexadecimal digits. -/
def isHexKey (key : String) : Bool :=
  !key.toList.isEmpty && key.toList.all isHexDigit

/-- The handler of `PUT /api/profile/encryption-key` (server.js 243-273) for the
authenticated user `username`. -/
def putEncryptionKey (users : UserStore) (username : String) (body : JSValue) (now : String) :
    Response × UserStore :=
  let encryptionKey : Option JSValue := match body with
    | .obj fields => mapGet fields "encryptionKey"
    | _ => none
  match encryptionKey with
  | some (.str key) =>
      if key = "" then (errorResponse 400 "Invalid encryption key format", users)
      else if !isHexKey key then
        (errorResponse 400 "Encryption key must be a valid hexadecimal string", users)
      else
        match updateEncryptionKey users username (some key) now with
        | none => (errorResponse 500 "Failed to update encryption key", users)
        | some updated =>
            ({ status := 200,
               body := .obj [("success", .bool true),
                             ("message", .str "Encryption key updated successfully"),
                             ("profile", match getUserProfile updated username with
                                | some profile => .obj profile
                                | none => .null)] },
             updated)
  | _ => (errorResponse 400 "Invalid encryption key format", users)

/-! ## The worker argument contract -/

/-- A flat argument list made of `--flag value` pairs. -/
def flattenPairs : List (String × String) → List String
  | [] => []
  | (flag, value) :: rest => flag :: value :: flattenPairs rest

/-- The pair of an optional argument: present exactly when the value is. -/
def optionalPair (flag : String) : Option String → List (String × String)
  | some value => [(flag, value)]
  | none => []

/-- A looked-up property holds a value: it exists and is not `undefined`. -/
def isGiven : Option JSValue → Bool
  | none => false
  | some .undefined => false
  | some _ => true

/-- The request body supplies the key `k` (with a value other than `undefined`). -/
def supplied (fields : Obj) (k : String) : Bool :=
  isGiven (mapGet fields k)

/-! ## Sample data for the worked examples -/

/-- A user store with one user who has saved a key. -/
def sampleUsers : UserStore :=
  [("admin",
    { username := "admin", passwordHash := "$2a$10$hash", role := "admin",
      encryptionKey := some "00112233445566778899aabbccddeeff",
      createdAt := "2024-01-01T00:00:00.000Z", updatedAt := some "2024-01-01T00:00:00.000Z" })]

/-- A Joi stand-in for the worked examples (none of them reaches these rules). -/
def sampleJoi : JoiLib :=
  { isUri := fun _ => true, toNumber := fun _ => none, toObject := fun _ => none }

/-- An upload request of user `admin` with the given form fields. -/
def sampleFileRequest (fields : Obj) : FileRequest :=
  { username := "admin",
    file := some { path := "/srv/api/uploads/u1-logs.json", originalname := "logs.json" },
    body := .obj fields }

/-- The serialisation `JSON.stringify` on the few values the examples use. -/
def sampleStringify : JSValue → String
  | .str s => "\"" ++ s ++ "\""
  | .arr [] => "[]"
  | .obj [] => "{}"
  | .bool true => "true"
  | .bool false => "false"
  | _ => "null"

/-- The parser `JSON.parse` on the few texts the examples use. -/
def sampleParse (text : String) : Except String JSValue :=
  if text = "[]" then .ok (.arr [])
  else if text = "null" then .ok .null
  else .error "Unexpected end of JSON input"

/-- A task environment in which `mkdir` and `unlink` succeed, the worker does
`spawned` and reading the artifact gives `artifact`. -/
def sampleEnv (spawned : Spawned) (artifact : Except String String) : TaskEnv :=
  { dirname := "/srv/api",
    mkdir := fun _ => .ok (),
    spawn := fun _ => spawned,
    readFile := fun _ => artifact,
    jsonParse := sampleParse,
    jsonStringify := sampleStringify,
    unlink := fun _ => .ok (),
    now := "2024-01-01T00:00:05.000Z" }

/-- A worker that writes nothing and exits with code 0. -/
def cleanExit : Spawned :=
  .started [.close (some 0)]

/-- A run in which a text-format file job completes with an empty artifact. -/
def emptyTextRun : List Action :=
  [.createFile "j1" "2024-01-01T00:00:01.000Z" (sampleFileRequest [("outputFormat", .str "text")]),
   .taskEnds "j1" (sampleEnv cleanExit (.ok ""))]

/-- The record the run `emptyTextRun` leaves under `j1`. -/
def emptyTextRecord : Obj :=
  [("id", .str "j1"), ("status", .str "completed"),
   ("createdAt", .str "2024-01-01T00:00:01.000Z"), ("fileName", .str "logs.json"),
   ("completedAt", .str "2024-01-01T00:00:05.000Z"), ("result", .str ""),
   ("downloadUrl", .str "/api/jobs/j1/download")]

/-- A run in which a JSON-format file job completes with the artifact `[]`. -/
def emptyListRun : List Action :=
  [.createFile "j1" "2024-01-01T00:00:01.000Z" (sampleFileRequest []),
   .taskEnds "j1" (sampleEnv cleanExit (.ok "[]"))]

/-- The record the run `emptyListRun` leaves under `j1`. -/
def emptyListRecord : Obj :=
  [("id", .str "j1"), ("status", .str "completed"),
   ("createdAt", .str "2024-01-01T00:00:01.000Z"), ("fileName", .str "logs.json"),
   ("completedAt", .str "2024-01-01T00:00:05.000Z"), ("result", .arr []),
   ("downloadUrl", .str "/api/jobs/j1/download")]

/-- A valid body for `POST /api/decrypt/kibana` without a key. -/
def sampleKibanaRequest : KibanaRequest :=
  { username := "admin",
    body := .obj [("elasticsearchUrl", .str "http://es:9200"), ("index", .str "logs")] }

/-- The validated value of `sampleKibanaRequest`. -/
def sampleKibanaValue : KibanaValue :=
  { elasticsearchUrl := "http://es:9200", index := "logs", encryptionKey := none,
    algorithm := "AES-256-CBC", field := "message", query := none, size := 100,
    username := none, password := none, apiKey := none, outputFormat := "json" }

/-- The validated value of `sampleFileRequest []`. -/
def sampleFileValue : FileValue :=
  { encryptionKey := none, algorithm := "AES-256-CBC", field := "message",
    outputFormat := "json" }

/-- A worker that prints a diagnostic and exits with code 1. -/
def failingExit : Spawned :=
  .started [.stderrData "bad key", .close (some 1)]

/-- The file task that `sampleFileRequest []` starts under `j1`. -/
def sampleFileTask : Task :=
  .file { jobId := "j1", filePath := "/srv/api/uploads/u1-logs.json",
          encryptionKey := "00112233445566778899aabbccddeeff", algorithm := "AES-256-CBC",
          field := "message", outputFormat := "json" }

/-- The state right after the upload job `j1` has been created. -/
def sampleInFlight : Sys :=
  { users := sampleUsers,
    jobs := [("j1", [("id", .str "j1"), ("status", .str "processing"),
                     ("createdAt", .str "2024-01-01T00:00:01.000Z"),
                     ("fileName", .str "logs.json")])],
    tasks := [sampleFileTask], deleting := [], issued := ["j1"] }

/-- A run in which the upload job `j1` is deleted while its task is in flight
and the task ends afterwards. -/
def lateWriteRun : List Action :=
  [.createFile "j1" "2024-01-01T00:00:01.000Z" (sampleFileRequest []),
   .deleteLookup "j1",
   .deleteCommit "j1",
   .taskEnds "j1" (sampleEnv cleanExit (.ok "[]"))]

/-- The record the late write of `lateWriteRun` stores under `j1`. -/
def lateRecord : Obj :=
  [("status", .str "completed"), ("completedAt", .str "2024-01-01T00:00:05.000Z"),
   ("result", .arr []), ("downloadUrl", .str "/api/jobs/j1/download")]

/-- A run with two jobs: the Kibana job `j2` fails, the upload job `j1` is
deleted while in flight and its task ends afterwards. -/
def mixedRun : List Action :=
  [.createFile "j1" "2024-01-01T00:00:01.000Z" (sampleFileRequest []),
   .createKibana "j2" "2024-01-01T00:00:02.000Z" sampleKibanaRequest,
   .taskEnds "j2" (sampleEnv failingExit (.ok "")),
   .deleteLookup "j1",
   .deleteCommit "j1",
   .taskEnds "j1" (sampleEnv cleanExit (.ok "[]"))]

/-- The state the run `mixedRun` ends in. -/
def mixedFinal : Sys :=
  { users := sampleUsers,
    jobs := [("j2", [("id", .str "j2"), ("status", .str "failed"),
                     ("createdAt", .str "2024-01-01T00:00:02.000Z"),
                     ("source", .str "kibana"), ("index", .str "logs"),
                     ("error", .str "Python process exited with code 1: bad key"),
                     ("completedAt", .str "2024-01-01T00:00:05.000Z")]),
             ("j1", lateRecord)],
    tasks := [], deleting := [], issued := ["j2", "j1"] }

/-- A valid body for `POST /api/decrypt/kibana` with basic-auth credentials, a size and a
query. -/
def sampleQueryRequest : KibanaRequest :=
  { username := "admin",
    body := .obj [("elasticsearchUrl", .str "http://es:9200"), ("index", .str "logs"),
                  ("size", .num (.finite 250)), ("username", .str "elastic"),
                  ("password", .str "secret"), ("query", .obj [("match_all", .obj [])])] }

/-- The validated value of `sampleQueryRequest`. -/
def sampleQueryValue : KibanaValue :=
  { elasticsearchUrl := "http://es:9200", index := "logs", encryptionKey := none,
    algorithm := "AES-256-CBC", field := "message", query := some [("match_all", .obj [])],
    size := 250, username := some "elastic", password := some "secret", apiKey := none,
    outputFormat := "json" }

/-- The Kibana task that `sampleQueryRequest` starts under `j1`. -/
def sampleQueryTask : Task :=
  .kibana { jobId := "j1", encryptionKey := "00112233445566778899aabbccddeeff",
            value := sampleQueryValue }

/-- The user store after `admin` has saved the twelve-digit key `0123456789ab`. -/
def shortKeyUsers : UserStore :=
  [("admin",
    { username := "admin", passwordHash := "$2a$10$hash", role := "admin",
      encryptionKey := some "0123456789ab",
      createdAt := "2024-01-01T00:00:00.000Z", updatedAt := some "2024-01-02T00:00:00.000Z" })]

/-- A run that leaves the upload job `j1` in flight and the Kibana job `j2`
failed. -/
def midRun : List Action :=
  [.createFile "j1" "2024-01-01T00:00:01.000Z" (sampleFileRequest []),
   .createKibana "j2" "2024-01-01T00:00:02.000Z" sampleKibanaRequest,
   .taskEnds "j2" (sampleEnv failingExit (.ok ""))]

/-- The state the run `midRun` ends in. -/
def midState : Sys :=
  { users := sampleUsers,
    jobs := [("j1", [("id", .str "j1"), ("status", .str "processing"),
                     ("createdAt", .str "2024-01-01T00:00:01.000Z"),
                     ("fileName", .str "logs.json")]),
             ("j2", [("id", .str "j2"), ("status", .str "failed"),
                     ("createdAt", .str "2024-01-01T00:00:02.000Z"),
                     ("source", .str "kibana"), ("index", .str "logs"),
                     ("error", .str "Python process exited with code 1: bad key"),
                     ("completedAt", .str "2024-01-01T00:00:05.000Z")])],
    tasks := [sampleFileTask], deleting := [], issued := ["j2", "j1"] }

/-- The state after the task of `j1` has ended with the artifact `[]` in `midState`. -/
def midStateDone : Sys :=
  { users := sampleUsers,
    jobs := [("j1", emptyListRecord),
             ("j2", [("id", .str "j2"), ("status", .str "failed"),
                     ("createdAt", .str "2024-01-01T00:00:02.000Z"),
                     ("source", .str "kibana"), ("index", .str "logs"),
                     ("error", .str "Python process exited with code 1: bad key"),
                     ("completedAt", .str "2024-01-01T00:00:05.000Z")])],
    tasks := [], deleting := [], issued := ["j2", "j1"] }

/-! # Properties -/

/-! ## Maps -/

theorem mapGet_nil {α : Type} (k : String) : mapGet ([] : List (String × α)) k = none := rfl

theorem mapGet_cons {α : Type} (e : String × α) (m : List (String × α)) (k : String) :
    mapGet (e :: m) k = if e.1 = k then some e.2 else mapGet m k := by
  unfold mapGet
  by_cases h : e.1 = k <;> simp [List.find?_cons, h]

theorem mapHas_eq_isSome {α : Type} (m : List (String × α)) (k : String) :
    mapHas m k = (mapGet m k).isSome := by
  induction m with
  | nil => rfl
  | cons e rest ih =>
      rw [mapGet_cons]
      unfold mapHas at ih ⊢
      by_cases h : e.1 = k <;> simp [h, ih]

theorem mapGet_map_replace {α : Type} (m : List (String × α)) (k k' : String) (v : α) :
    mapGet (m.map (fun e => if e.1 == k then (k, v) else e)) k' =
      if k' = k then (mapGet m k).map (fun _ => v) else mapGet m k' := by
  induction m with
  | nil => simp [mapGet_nil]
  | cons e rest ih =>
      rw [List.map_cons, mapGet_cons, mapGet_cons, mapGet_cons, ih]
      by_cases h : e.1 = k
      · by_cases h' : k' = k
        · simp [h, h']
        · simp [h, h', Ne.symm h']
      · by_cases h' : k' = k
        · simp [h, h']
        · by_cases h2 : e.1 = k' <;> simp [h, h', h2]

theorem mapGet_append_single {α : Type} (m : List (String × α)) (k k' : String) (v : α) :
    mapGet (m ++ [(k, v)]) k' =
      match mapGet m k' with
      | some x => some x
      | none => if k = k' then some v else none := by
  induction m with
  | nil => simp [mapGet_nil, mapGet_cons]
  | cons e rest ih =>
      rw [List.cons_append, mapGet_cons, mapGet_cons, ih]
      by_cases h : e.1 = k' <;> simp [h]

theorem mapGet_mapSet {α : Type} (m : List (String × α)) (k k' : String) (v : α) :
    mapGet (mapSet m k v) k' = if k' = k then some v else mapGet m k' := by
  unfold mapSet
  by_cases hh : mapHas m k = true
  · rw [if_pos hh, mapGet_map_replace]
    rw [mapHas_eq_isSome] at hh
    by_cases h' : k' = k
    · obtain ⟨x, hx⟩ := Option.isSome_iff_exists.mp hh
      simp [h', hx]
    · simp [h']
  · rw [if_neg hh, mapGet_append_single]
    rw [mapHas_eq_isSome] at hh
    by_cases h' : k' = k
    · subst h'
      simp at hh
      simp [hh]
    · cases hg : mapGet m k' <;> simp [h', Ne.symm h']

theorem mapGet_mapDelete {α : Type} (m : List (String × α)) (k k' : String) :
    mapGet (mapDelete m k) k' = if k' = k then none else mapGet m k' := by
  induction m with
  | nil => simp [mapDelete, mapGet_nil]
  | cons e rest ih =>
      unfold mapDelete at ih ⊢
      by_cases h : e.1 = k
      · rw [List.filter_cons_of_neg (by simp [h]), ih, mapGet_cons]
        by_cases h' : k' = k
        · simp [h']
        · simp [h', h, Ne.symm h']
      · rw [List.filter_cons_of_pos (by simp [h]), mapGet_cons, mapGet_cons, ih]
        by_cases h' : k' = k
        · subst h'
          simp [h]
        · simp [h']

theorem length_mapSet {α : Type} (m : List (String × α)) (k : String) (v : α) :
    (mapSet m k v).length = if (mapGet m k).isSome then m.length else m.length + 1 := by
  unfold mapSet
  rw [mapHas_eq_isSome]
  split <;> simp

theorem mem_mapSet {α : Type} (m : List (String × α)) (k : String) (v : α) (e : String × α)
    (h : e ∈ mapSet m k v) : (e ∈ m ∧ e.1 ≠ k) ∨ e = (k, v) := by
  unfold mapSet at h
  split at h
  · rw [List.mem_map] at h
    obtain ⟨a, ha, hae⟩ := h
    by_cases hk : a.1 = k
    · simp [hk] at hae
      exact Or.inr hae.symm
    · simp [hk] at hae
      subst hae
      exact Or.inl ⟨ha, hk⟩
  · rename_i hh
    rw [List.mem_append] at h
    rcases h with h | h
    · left
      refine ⟨h, ?_⟩
      intro hk
      apply hh
      unfold mapHas
      rw [List.any_eq_true]
      exact ⟨e, h, by simp [hk]⟩
    · right
      simpa using h

theorem mem_mapDelete {α : Type} (m : List (String × α)) (k : String) (e : String × α) :
    e ∈ mapDelete m k ↔ e ∈ m ∧ e.1 ≠ k := by
  simp [mapDelete]

theorem mem_of_mapGet {α : Type} (m : List (String × α)) (k : String) (v : α)
    (h : mapGet m k = some v) : (k, v) ∈ m := by
  induction m with
  | nil => simp [mapGet_nil] at h
  | cons e rest ih =>
      rw [mapGet_cons] at h
      by_cases hk : e.1 = k
      · simp [hk] at h
        rw [List.mem_cons]
        left
        rw [← hk, ← h]
      · simp [hk] at h
        exact List.mem_cons_of_mem _ (ih h)
/-! ## Worker invoker -/

theorem foldl_onEvent_settled (events : List ProcEvent) (st : Invocation)
    (r : Except String (String × String)) (h : st.settled = some r) :
    (events.foldl onEvent st).settled = some r := by
  induction events generalizing st with
  | nil => simpa using h
  | cons e rest ih =>
      rw [List.foldl_cons]
      apply ih
      cases e <;> simp [onEvent, settle, h]

theorem foldl_onEvent_pending (events : List ProcEvent) (st : Invocation)
    (h : st.settled = none) :
    (events.foldl onEvent st).settled =
      match firstTermination events with
      | none => none
      | some (.close code) =>
          if code = some 0 then
            some (.ok (st.stdout ++ stdoutOf (beforeTermination events),
                       st.stderr ++ stderrOf (beforeTermination events)))
          else
            some (.error (exitMessage code (st.stderr ++ stderrOf (beforeTermination events))))
      | some (.error message) => some (.error (startMessage message))
      | some _ => none := by
  induction events generalizing st with
  | nil => simp [firstTermination, h]
  | cons e rest ih =>
      rw [List.foldl_cons]
      cases e with
      | stdoutData chunk =>
          rw [ih _ (by simpa [onEvent] using h)]
          simp [firstTermination, beforeTermination, ProcEvent.terminating, onEvent, stdoutOf,
            stderrOf, String.append_assoc]
      | stderrData chunk =>
          rw [ih _ (by simpa [onEvent] using h)]
          simp [firstTermination, beforeTermination, ProcEvent.terminating, onEvent, stdoutOf,
            stderrOf, String.append_assoc]
      | close code =>
          by_cases hc : code = some 0
          · rw [foldl_onEvent_settled rest _ (.ok (st.stdout, st.stderr))
              (by simp [onEvent, hc, settle, h])]
            simp [firstTermination, beforeTermination, ProcEvent.terminating, hc, stdoutOf,
              stderrOf]
          · rw [foldl_onEvent_settled rest _ (.error (exitMessage code st.stderr))
              (by simp [onEvent, hc, settle, h])]
            simp [firstTermination, beforeTermination, ProcEvent.terminating, hc, stderrOf]
      | error message =>
          rw [foldl_onEvent_settled rest _ (.error (startMessage message))
            (by simp [onEvent, settle, h])]
          simp [firstTermination, beforeTermination, ProcEvent.terminating]

theorem runPythonDecryption_eq_workerContract (events : List ProcEvent) :
    runPythonDecryption (.started events) = workerContract events := by
  simp only [runPythonDecryption, workerContract]
  rw [foldl_onEvent_pending events _ rfl]
  rcases firstTermination events with _ | e
  · rfl
  · cases e <;> simp

/-- C7. `runPythonDecryption` as a function of the process events: it resolves,
with the output captured so far, exactly when the first terminating event is
a `close` with code 0; a first `close` with any other code (`null` included)
rejects with `Python process exited with code <code>: <captured stderr>`; a
first `error` event rejects with `Failed to start Python process: <message>`; without a
terminating event the promise stays pending. The two rejection messages are
never equal and never empty. -/
theorem runPythonDecryption_contract (events : List ProcEvent) (code : Option Int)
    (stderr message : String) :
    (∀ out, runPythonDecryption (.started events) = some (.ok out) ↔
      (firstTermination events = some (.close (some 0)) ∧
        out = (stdoutOf (beforeTermination events), stderrOf (beforeTermination events)))) ∧
    (∀ c, firstTermination events = some (.close c) → c ≠ some 0 →
      runPythonDecryption (.started events) =
        some (.error (exitMessage c (stderrOf (beforeTermination events))))) ∧
    (∀ m, firstTermination events = some (.error m) →
      runPythonDecryption (.started events) = some (.error (startMessage m))) ∧
    (firstTermination events = none → runPythonDecryption (.started events) = none) ∧
    exitMessage code stderr =
      "Python process exited with code " ++ codeText code ++ ": " ++ stderr ∧
    startMessage message = "Failed to start Python process: " ++ message ∧
    exitMessage code stderr ≠ startMessage message ∧
    exitMessage code stderr ≠ "" ∧ startMessage message ≠ "" := by
  rw [runPythonDecryption_eq_workerContract]
  refine ⟨?_, ?_, ?_, ?_, rfl, rfl, ?_, ?_, ?_⟩
  · intro out
    unfold workerContract
    rcases hft : firstTermination events with _ | e
    · simp
    · cases e with
      | close c =>
          by_cases hc : c = some 0
          · simp [hc, eq_comm]
          · simp [hc]
      | error m => simp
      | stdoutData chunk => simp
      | stderrData chunk => simp
  · intro c hft hc
    simp [workerContract, hft, hc]
  · intro m hft
    simp [workerContract, hft]
  · intro hft
    simp [workerContract, hft]
  · intro h
    have h2 := congrArg String.data h
    simp only [exitMessage, startMessage, String.data_append, List.append_assoc] at h2
    have h3 := congrArg List.head? h2
    simp at h3
  · intro h
    have h2 := congrArg String.length h
    simp [exitMessage] at h2
    exact absurd h2.1.1.1 (by decide)
  · intro h
    have h2 := congrArg String.length h
    simp [startMessage] at h2
    exact absurd h2.1 (by decide)

/-! ## Delete -/

/-- C10. `DELETE /api/jobs/:jobId` on a store `jobs`: when the id has a record the
response is the success message, the new store has no record for the id (a
poll of it answers 404 `Job not found`) and the record under every other id
is the same; when it has none the response is 404 `Job not found` and the store
is `jobs` itself. A second deletion of the same id therefore answers 404 and
leaves the store as the first one left it. After the handler's `await` the
same holds of the store it resumes on. -/
theorem deleteJob_effect (stringify : JSValue → String) (jobs resumed : JobStore)
    (jobId other : String) :
    (∀ job, mapGet jobs jobId = some job →
      (deleteJob jobs jobId).1 =
        { status := 200, body := .obj [("message", .str "Job deleted successfully")] } ∧
      mapGet (deleteJob jobs jobId).2 jobId = none ∧
      getJob stringify (deleteJob jobs jobId).2 jobId = errorResponse 404 "Job not found" ∧
      (other ≠ jobId → mapGet (deleteJob jobs jobId).2 other = mapGet jobs other) ∧
      (∀ e, e.1 ≠ jobId → (e ∈ (deleteJob jobs jobId).2 ↔ e ∈ jobs))) ∧
    (mapGet jobs jobId = none →
      deleteJob jobs jobId = (errorResponse 404 "Job not found", jobs)) ∧
    deleteJob (deleteJob jobs jobId).2 jobId =
      (errorResponse 404 "Job not found", (deleteJob jobs jobId).2) ∧
    (mapGet (deleteJobCommit resumed jobId).2 jobId = none ∧
      (other ≠ jobId → mapGet (deleteJobCommit resumed jobId).2 other = mapGet resumed other)) := by
  have hcommit : ∀ (m : JobStore), mapGet (deleteJobCommit m jobId).2 jobId = none := by
    intro m
    simp [deleteJobCommit, mapGet_mapDelete]
  have hother : ∀ (m : JobStore), other ≠ jobId →
      mapGet (deleteJobCommit m jobId).2 other = mapGet m other := by
    intro m h
    simp [deleteJobCommit, mapGet_mapDelete, h]
  have hnone : ∀ (m : JobStore), mapGet m jobId = none →
      deleteJob m jobId = (errorResponse 404 "Job not found", m) := by
    intro m h
    simp [deleteJob, deleteJobLookup, h]
  have hsome : ∀ job, mapGet jobs jobId = some job →
      deleteJob jobs jobId = deleteJobCommit jobs jobId := by
    intro job h
    simp [deleteJob, deleteJobLookup, h]
  refine ⟨?_, hnone jobs, ?_, hcommit resumed, hother resumed⟩
  · intro job h
    rw [hsome job h]
    refine ⟨rfl, hcommit jobs, ?_, hother jobs, ?_⟩
    · simp [getJob, hcommit jobs]
    · intro e he
      simp [deleteJobCommit, mem_mapDelete, he]
  · cases h : mapGet jobs jobId with
    | none => rw [hnone jobs h, hnone jobs h]
    | some job =>
        rw [hsome job h]
        exact hnone _ (hcommit jobs)

/-! ## Fetch result -/

/-- C9. `GET /api/jobs/:jobId/result`: without a record the response is 404
`Job not found`; with a record whose status is not `completed` it is a 400 whose
body is the error text and the record's current status, without a result;
with a `completed` record it is 200 with the stored result as its body. The
handler only reads the store. -/
theorem getJobResult_contract (jobs : JobStore) (jobId : String) :
    (mapGet jobs jobId = none → getJobResult jobs jobId = errorResponse 404 "Job not found") ∧
    (∀ job, mapGet jobs jobId = some job → hasStatus job "completed" = false →
      getJobResult jobs jobId =
        { status := 400,
          body := .obj [("error", .str "Job not completed"),
                        ("status", (mapGet job "status").getD .undefined)] } ∧
      (∀ status, hasStatus job status = true →
        getJobResult jobs jobId =
          { status := 400,
            body := .obj [("error", .str "Job not completed"), ("status", .str status)] })) ∧
    (∀ job, mapGet jobs jobId = some job → hasStatus job "completed" = true →
      getJobResult jobs jobId =
        { status := 200, body := (mapGet job "result").getD .undefined }) := by
  refine ⟨?_, ?_, ?_⟩
  · intro h
    simp [getJobResult, h]
  · intro job h hs
    have h1 : getJobResult jobs jobId =
        { status := 400,
          body := .obj [("error", .str "Job not completed"),
                        ("status", (mapGet job "status").getD .undefined)] } := by
      unfold hasStatus at hs
      cases hv : mapGet job "status" with
      | none => simp [getJobResult, h, hv, JSValue.isStr]
      | some v =>
          rw [hv] at hs
          simp only [] at hs
          simp [getJobResult, h, hv, hs]
    refine ⟨h1, ?_⟩
    intro status hst
    rw [h1]
    unfold hasStatus at hst
    cases hv : mapGet job "status" with
    | none => simp [hv] at hst
    | some v =>
        rw [hv] at hst
        cases v <;> simp [JSValue.isStr] at hst
        simp [hst]
  · intro job h hs
    unfold hasStatus at hs
    cases hv : mapGet job "status" with
    | none => simp [hv] at hs
    | some v =>
        rw [hv] at hs
        simp only [] at hs
        simp [getJobResult, h, hv, hs]

/-! ## Poll status -/

theorem mapGet_spread_two (base : Obj) (a b k : String) (x y : JSValue) :
    mapGet (spread base [(a, x), (b, y)]) k =
      if k = b then some y else if k = a then some x else mapGet base k := by
  simp [spread, mapGet_mapSet]

theorem emptyTextRun_jobs :
    (run sampleJoi (Sys.init sampleUsers) emptyTextRun).map Sys.jobs =
      some [("j1", emptyTextRecord)] := by
  rfl

theorem emptyListRun_jobs :
    (run sampleJoi (Sys.init sampleUsers) emptyListRun).map Sys.jobs =
      some [("j1", emptyListRecord)] := by
  rfl

/-- C8, as stated, fails. A text-format job whose worker exits with code 0 and
leaves an empty artifact ends `completed` with the result `''` stored; the poll
then answers `hasResult: false` and `resultSize: 0`, although the record has a result
whose JSON serialisation has length 2. -/
theorem getJob_hasResult_counterexample :
    (run sampleJoi (Sys.init sampleUsers) emptyTextRun).map Sys.jobs =
      some [("j1", emptyTextRecord)] ∧
    hasStatus emptyTextRecord "completed" = true ∧
    hasField emptyTextRecord "result" = true ∧
    getJob sampleStringify [("j1", emptyTextRecord)] "j1" =
      { status := 200,
        body := .obj
          [("id", .str "j1"), ("status", .str "completed"),
           ("createdAt", .str "2024-01-01T00:00:01.000Z"), ("fileName", .str "logs.json"),
           ("completedAt", .str "2024-01-01T00:00:05.000Z"),
           ("downloadUrl", .str "/api/jobs/j1/download"),
           ("hasResult", .bool false), ("resultSize", .num (.finite 0))] } ∧
    jsLength (sampleStringify (.str "")) = 2 := by
  refine ⟨emptyTextRun_jobs, by decide, by decide, by rfl, by decide⟩

/-- C8, amended. For every record in the store the poll answers 200 with an
object that has no `result` property, has every other property of the record
with its value (`hasResult` and `resultSize` being set by the handler), and
nothing else; `hasResult` is true exactly when the record has a result that
is truthy (a result of `''`, `0`, `false` or `null` counts as none); `resultSize`
is the length of the JSON serialisation of the result when the result is
truthy, and 0 otherwise. -/
theorem getJob_contract (stringify : JSValue → String) (jobs : JobStore) (jobId : String)
    (job : Obj) (h : mapGet jobs jobId = some job) :
    ∃ fields, getJob stringify jobs jobId = { status := 200, body := .obj fields } ∧
      mapGet fields "result" = none ∧
      (∀ k, k ≠ "result" → k ≠ "hasResult" → k ≠ "resultSize" →
        mapGet fields k = mapGet job k) ∧
      mapGet fields "hasResult" =
        some (.bool ((mapGet job "result").getD .undefined).truthy) ∧
      (((mapGet job "result").getD .undefined).truthy = true →
        mapGet fields "resultSize" = some (.num (.finite
          (jsLength (stringify ((mapGet job "result").getD .undefined)) : Rat)))) ∧
      (((mapGet job "result").getD .undefined).truthy = false →
        mapGet fields "resultSize" = some (.num (.finite 0))) := by
  refine ⟨_, by simp only [getJob, h]; rfl, ?_, ?_, ?_, ?_, ?_⟩
  · rw [mapGet_spread_two]
    simp [withoutKey, mapGet_mapDelete]
  · intro k h1 h2 h3
    rw [mapGet_spread_two]
    simp [withoutKey, mapGet_mapDelete, h1, h2, h3]
  · rw [mapGet_spread_two]
    simp
  · intro ht
    rw [mapGet_spread_two]
    simp [ht]
  · intro hf
    rw [mapGet_spread_two]
    simp [hf]

/-- The amended C8 at a completed JSON job whose result is the empty array. -/
theorem getJob_contract_witness :
    mapGet [("j1", emptyListRecord)] "j1" = some emptyListRecord ∧
    ∃ fields, getJob sampleStringify [("j1", emptyListRecord)] "j1" =
        { status := 200, body := .obj fields } ∧
      mapGet fields "result" = none ∧
      (∀ k, k ≠ "result" → k ≠ "hasResult" → k ≠ "resultSize" →
        mapGet fields k = mapGet emptyListRecord k) ∧
      mapGet fields "hasResult" =
        some (.bool ((mapGet emptyListRecord "result").getD .undefined).truthy) ∧
      (((mapGet emptyListRecord "result").getD .undefined).truthy = true →
        mapGet fields "resultSize" = some (.num (.finite
          (jsLength (sampleStringify ((mapGet emptyListRecord "result").getD .undefined)) : Rat)))) ∧
      (((mapGet emptyListRecord "result").getD .undefined).truthy = false →
        mapGet fields "resultSize" = some (.num (.finite 0))) :=
  ⟨rfl, getJob_contract sampleStringify [("j1", emptyListRecord)] "j1" emptyListRecord rfl⟩

/-! ## Key resolution -/

theorem keyMissing_some (key : String) : keyMissing (some key) = decide (jsTrim key = "") := by
  by_cases h : key = ""
  · subst h
    simp [keyMissing]
    rfl
  · have hb : (key == "") = false := by
      rw [beq_eq_false_iff_ne]
      exact h
    by_cases ht : jsTrim key = ""
    · simp [keyMissing, hb, ht]
    · have htb : (jsTrim key == "") = false := by
        rw [beq_eq_false_iff_ne]
        exact ht
      simp [keyMissing, hb, ht, htb]

theorem getEncryptionKey_eq_none (users : UserStore) (username : String) :
    getEncryptionKey users username = none ↔
      ∀ user, mapGet users username = some user →
        user.encryptionKey = none ∨ user.encryptionKey = some "" := by
  unfold getEncryptionKey
  cases hu : mapGet users username with
  | none => simp
  | some user =>
      cases hk : user.encryptionKey with
      | none => simp [hk]
      | some key =>
          by_cases he : key = "" <;> simp [hk, he]

theorem argValue_key_fileArgs (dirname : String) (t : FileTask) :
    argValue (fileArgs dirname t) "--key" = some t.encryptionKey := by
  simp [fileArgs, argValue]

theorem argValue_key_kibanaArgs (dirname : String) (stringify : JSValue → String)
    (t : KibanaTask) :
    argValue (kibanaArgs dirname stringify t) "--key" = some t.encryptionKey := by
  unfold kibanaArgs
  simp only []
  repeat' split
  all_goals simp [argValue]

theorem keyPolicy_of_resolved (explicit stored : Option String) (jobs : JobStore) (env : TaskEnv)
    (c : Created) (mk : String → Task)
    (hargs : ∀ key, argValue ((mk key).args env) "--key" = some key)
    (hsome : ∀ key, (if keyMissing explicit then stored else explicit) = some key →
      c.task = some (mk key))
    (hnone : (if keyMissing explicit then stored else explicit) = none →
      c.response = errorResponse 400 noKeyMessage ∧ c.jobs = jobs ∧ c.task = none) :
    keyPolicy explicit stored jobs env c := by
  refine ⟨?_, ?_⟩
  · intro key he ht
    have hm : keyMissing explicit = false := by
      rw [he, keyMissing_some]
      simp [ht]
    exact ⟨mk key, hsome key (by rw [hm]; simpa using he), hargs key⟩
  · intro hb
    have hm : keyMissing explicit = true := by
      rcases hb with hb | ⟨key, he, ht⟩
      · rw [hb]
        rfl
      · rw [he, keyMissing_some]
        simp [ht]
    refine ⟨?_, ?_⟩
    · intro key hs
      exact ⟨mk key, hsome key (by simp [hm, hs]), hargs key⟩
    · intro hs
      exact hnone (by simp [hm, hs])

/-- C4. Key resolution in both create handlers, for every validated request
(with a file, for the upload handler), every caller and every store: a
non-blank explicit key is the value of `--key` whatever the profile holds; an
absent, empty or whitespace-only explicit key gives the caller's stored key
`getEncryptionKey(username)`; and when there is no non-empty stored key either,
the response is the 400 rejection, no task is started and the job store is
unchanged. -/
theorem key_resolution (joi : JoiLib) (users : UserStore) (jobs : JobStore) (jobId now : String)
    (env : TaskEnv) (freq : FileRequest) (file : UploadedFile) (fvalue : FileValue)
    (kreq : KibanaRequest) (kvalue : KibanaValue)
    (hfile : freq.file = some file)
    (hfvalue : decryptFileSchema freq.body = .ok fvalue)
    (hkvalue : decryptKibanaSchema joi kreq.body = .ok kvalue) :
    keyPolicy fvalue.encryptionKey (getEncryptionKey users freq.username) jobs env
      (postDecryptFile users jobs jobId now freq) ∧
    keyPolicy kvalue.encryptionKey (getEncryptionKey users kreq.username) jobs env
      (postDecryptKibana joi users jobs jobId now kreq) ∧
    (getEncryptionKey users freq.username = none ↔
      ∀ user, mapGet users freq.username = some user →
        user.encryptionKey = none ∨ user.encryptionKey = some "") := by
  refine ⟨?_, ?_, getEncryptionKey_eq_none users freq.username⟩
  · apply keyPolicy_of_resolved _ _ _ _ _
      (fun key => Task.file
        { jobId := jobId, filePath := file.path, encryptionKey := key,
          algorithm := fvalue.algorithm, field := fvalue.field,
          outputFormat := fvalue.outputFormat })
    · intro key
      exact argValue_key_fileArgs _ _
    · intro key h
      simp only [postDecryptFile, hfile, hfvalue, h]
    · intro h
      simp only [postDecryptFile, hfile, hfvalue, h]
      simp
  · apply keyPolicy_of_resolved _ _ _ _ _
      (fun key => Task.kibana { jobId := jobId, encryptionKey := key, value := kvalue })
    · intro key
      exact argValue_key_kibanaArgs _ _ _
    · intro key h
      simp only [postDecryptKibana, hkvalue, h]
    · intro h
      simp only [postDecryptKibana, hkvalue, h]
      simp

/-- C4 at an upload and a Kibana request without explicit key, from a user
who has saved a key. -/
theorem key_resolution_witness :
    keyPolicy sampleFileValue.encryptionKey (getEncryptionKey sampleUsers "admin") []
      (sampleEnv cleanExit (.ok "[]"))
      (postDecryptFile sampleUsers [] "j1" "2024-01-01T00:00:01.000Z" (sampleFileRequest [])) ∧
    keyPolicy sampleKibanaValue.encryptionKey (getEncryptionKey sampleUsers "admin") []
      (sampleEnv cleanExit (.ok "[]"))
      (postDecryptKibana sampleJoi sampleUsers [] "j1" "2024-01-01T00:00:01.000Z"
        sampleKibanaRequest) ∧
    (getEncryptionKey sampleUsers "admin" = none ↔
      ∀ user, mapGet sampleUsers "admin" = some user →
        user.encryptionKey = none ∨ user.encryptionKey = some "") :=
  key_resolution sampleJoi sampleUsers [] "j1" "2024-01-01T00:00:01.000Z"
    (sampleEnv cleanExit (.ok "[]")) (sampleFileRequest [])
    { path := "/srv/api/uploads/u1-logs.json", originalname := "logs.json" } sampleFileValue
    sampleKibanaRequest sampleKibanaValue rfl rfl rfl

/-! ## Create -/

theorem joiValid_error (label : String) (values : List String) (dflt : String) (a : JSValue)
    (hu : a ≠ .undefined) (hv : ∀ s, a = .str s → s ∉ values) :
    ∃ message, joiValid label values dflt (some a) = .error message := by
  cases a with
  | undefined => exact absurd rfl hu
  | str s =>
      refine ⟨"\"" ++ label ++ "\" must be one of [" ++ joinValues values ++ "]", ?_⟩
      simp only [joiValid, if_neg (hv s rfl)]
  | null => exact ⟨_, rfl⟩
  | bool b => exact ⟨_, rfl⟩
  | num n => exact ⟨_, rfl⟩
  | arr items => exact ⟨_, rfl⟩
  | obj fields => exact ⟨_, rfl⟩

theorem decryptFileSchema_algorithm (fields : Obj) (a : JSValue)
    (ha : mapGet fields "algorithm" = some a)
    (hu : a ≠ .undefined) (hv : ∀ s, a = .str s → s ∉ algorithms) :
    ∃ message, decryptFileSchema (.obj fields) = .error message := by
  obtain ⟨message, hm⟩ := joiValid_error "algorithm" algorithms "AES-256-CBC" a hu hv
  simp only [decryptFileSchema, ha, hm]
  cases joiString "encryptionKey" true (mapGet fields "encryptionKey") with
  | error e => exact ⟨e, rfl⟩
  | ok v => exact ⟨message, rfl⟩

theorem decryptKibanaSchema_algorithm (joi : JoiLib) (fields : Obj) (a : JSValue)
    (ha : mapGet fields "algorithm" = some a)
    (hu : a ≠ .undefined) (hv : ∀ s, a = .str s → s ∉ algorithms) :
    ∃ message, decryptKibanaSchema joi (.obj fields) = .error message := by
  obtain ⟨message, hm⟩ := joiValid_error "algorithm" algorithms "AES-256-CBC" a hu hv
  simp only [decryptKibanaSchema, ha, hm]
  cases joiStringRequired "elasticsearchUrl" (mapGet fields "elasticsearchUrl") with
  | error e => exact ⟨e, rfl⟩
  | ok url =>
      by_cases huri : joi.isUri url = true
      · cases joiStringRequired "index" (mapGet fields "index") with
        | error e => exact ⟨e, by simp [bind, Except.bind, huri, pure, Except.pure]⟩
        | ok index =>
            cases joiString "encryptionKey" true (mapGet fields "encryptionKey") with
            | error e => exact ⟨e, by simp [bind, Except.bind, huri, pure, Except.pure]⟩
            | ok v => exact ⟨message, by simp [bind, Except.bind, huri, pure, Except.pure]⟩
      · exact ⟨_, by simp [bind, Except.bind, huri]; rfl⟩

theorem createOutcome_started (stringify : JSValue → String) (jobs : JobStore) (jobId : String)
    (record : Obj) (task : Task) (c : Created)
    (hr : c.response = startedResponse jobId) (ht : c.task = some task)
    (hj : task.jobId = jobId) (hjobs : c.jobs = mapSet jobs jobId record)
    (hid : mapGet record "id" = some (.str jobId))
    (hst : mapGet record "status" = some (.str "processing")) :
    createOutcome stringify jobs jobId c := by
  have hget : mapGet c.jobs jobId = some record := by
    rw [hjobs, mapGet_mapSet]
    simp
  refine Or.inr ⟨record, task, hr, ht, hj, hjobs, hid, hst, hget, ?_, ?_, ?_⟩
  · intro other ho
    rw [hjobs, mapGet_mapSet]
    simp [ho]
  · intro hn
    rw [hjobs]
    unfold mapSet
    rw [mapHas_eq_isSome, hn]
    simp
  · refine ⟨_, by simp only [getJob, hget]; rfl, ?_⟩
    rw [mapGet_spread_two]
    simp [withoutKey, mapGet_mapDelete, hst]

theorem postDecryptFile_outcome (stringify : JSValue → String) (users : UserStore)
    (jobs : JobStore) (jobId now : String) (req : FileRequest) :
    createOutcome stringify jobs jobId (postDecryptFile users jobs jobId now req) := by
  unfold postDecryptFile
  cases req.file with
  | none => exact Or.inl ⟨_, rfl, rfl, rfl⟩
  | some file =>
      cases decryptFileSchema req.body with
      | error message => exact Or.inl ⟨_, rfl, rfl, rfl⟩
      | ok value =>
          simp only []
          cases (if keyMissing value.encryptionKey = true then
              getEncryptionKey users req.username else value.encryptionKey) with
          | none => exact Or.inl ⟨_, rfl, rfl, rfl⟩
          | some key =>
              exact createOutcome_started stringify jobs jobId _ _ _ rfl rfl rfl rfl rfl rfl

theorem postDecryptKibana_outcome (stringify : JSValue → String) (joi : JoiLib)
    (users : UserStore) (jobs : JobStore) (jobId now : String) (req : KibanaRequest) :
    createOutcome stringify jobs jobId (postDecryptKibana joi users jobs jobId now req) := by
  unfold postDecryptKibana
  cases decryptKibanaSchema joi req.body with
  | error message => exact Or.inl ⟨_, rfl, rfl, rfl⟩
  | ok value =>
      simp only []
      cases (if keyMissing value.encryptionKey = true then
          getEncryptionKey users req.username else value.encryptionKey) with
      | none => exact Or.inl ⟨_, rfl, rfl, rfl⟩
      | some key =>
          exact createOutcome_started stringify jobs jobId _ _ _ rfl rfl rfl rfl rfl rfl

/-- C5. Effect of a create request on the job store, for every store and every
request to either create handler: the request is rejected synchronously with
a 400 that carries no job id and the store is unchanged, or the response is
`{jobId, status: 'processing', message, statusUrl: '/api/jobs/' + jobId}` and the store
is the old one with one record under `jobId` whose `id` is `jobId` and whose status
is `processing`, which a poll of `jobId` reports at once. A missing file, a
schema error and in particular an algorithm outside the enumeration are
rejections, and so is a valid request without a resolvable key; a valid
request (with a file, for the upload handler) whose key resolves is accepted:
the response is the `processing` one with status 200, the store is set at `jobId`
to the new record and the task is started. -/
theorem create_effect (stringify : JSValue → String) (joi : JoiLib) (users : UserStore)
    (jobs : JobStore) (jobId now : String) (freq : FileRequest) (kreq : KibanaRequest) :
    createOutcome stringify jobs jobId (postDecryptFile users jobs jobId now freq) ∧
    createOutcome stringify jobs jobId (postDecryptKibana joi users jobs jobId now kreq) ∧
    (freq.file = none →
      postDecryptFile users jobs jobId now freq =
        { response := errorResponse 400 "No file uploaded", jobs := jobs, task := none }) ∧
    (∀ file message, freq.file = some file → decryptFileSchema freq.body = .error message →
      postDecryptFile users jobs jobId now freq =
        { response := errorResponse 400 message, jobs := jobs, task := none }) ∧
    (∀ message, decryptKibanaSchema joi kreq.body = .error message →
      postDecryptKibana joi users jobs jobId now kreq =
        { response := errorResponse 400 message, jobs := jobs, task := none }) ∧
    (∀ fields a, mapGet fields "algorithm" = some a → a ≠ .undefined →
      (∀ s, a = .str s → s ∉ algorithms) →
      (∃ message, decryptFileSchema (.obj fields) = .error message) ∧
      (∃ message, decryptKibanaSchema joi (.obj fields) = .error message)) ∧
    (startedResponse jobId).body =
      .obj [("jobId", .str jobId), ("status", .str "processing"),
            ("message", .str "Decryption job started"),
            ("statusUrl", .str ("/api/jobs/" ++ jobId))] ∧
    algorithms = ["AES-256-CBC", "AES-128-CBC", "AES-256-GCM", "AES-128-GCM"] ∧
    (∀ file value key, freq.file = some file → decryptFileSchema freq.body = .ok value →
      (if keyMissing value.encryptionKey then getEncryptionKey users freq.username
        else value.encryptionKey) = some key →
      postDecryptFile users jobs jobId now freq =
        { response := startedResponse jobId,
          jobs := mapSet jobs jobId
            [("id", .str jobId), ("status", .str "processing"),
             ("createdAt", .str now), ("fileName", .str file.originalname)],
          task := some (.file
            { jobId := jobId, filePath := file.path, encryptionKey := key,
              algorithm := value.algorithm, field := value.field,
              outputFormat := value.outputFormat }) }) ∧
    (∀ file value, freq.file = some file → decryptFileSchema freq.body = .ok value →
      (if keyMissing value.encryptionKey then getEncryptionKey users freq.username
        else value.encryptionKey) = none →
      postDecryptFile users jobs jobId now freq =
        { response := errorResponse 400 noKeyMessage, jobs := jobs, task := none }) ∧
    (∀ value key, decryptKibanaSchema joi kreq.body = .ok value →
      (if keyMissing value.encryptionKey then getEncryptionKey users kreq.username
        else value.encryptionKey) = some key →
      postDecryptKibana joi users jobs jobId now kreq =
        { response := startedResponse jobId,
          jobs := mapSet jobs jobId
            [("id", .str jobId), ("status", .str "processing"),
             ("createdAt", .str now), ("source", .str "kibana"),
             ("index", .str value.index)],
          task := some (.kibana
            { jobId := jobId, encryptionKey := key, value := value }) }) ∧
    (∀ value, decryptKibanaSchema joi kreq.body = .ok value →
      (if keyMissing value.encryptionKey then getEncryptionKey users kreq.username
        else value.encryptionKey) = none →
      postDecryptKibana joi users jobs jobId now kreq =
        { response := errorResponse 400 noKeyMessage, jobs := jobs, task := none }) ∧
    (startedResponse jobId).status = 200 ∧
    (∀ message, startedResponse jobId ≠ errorResponse 400 message) ∧
    (∀ message, mapGet [("error", JSValue.str message)] "jobId" = none) := by
  refine ⟨postDecryptFile_outcome stringify users jobs jobId now freq,
    postDecryptKibana_outcome stringify joi users jobs jobId now kreq, ?_, ?_, ?_, ?_, rfl, rfl,
    ?_, ?_, ?_, ?_, rfl, ?_, ?_⟩
  · intro h
    simp only [postDecryptFile, h]
  · intro file message hf hm
    simp only [postDecryptFile, hf, hm]
  · intro message hm
    simp only [postDecryptKibana, hm]
  · intro fields a ha hu hv
    exact ⟨decryptFileSchema_algorithm fields a ha hu hv,
      decryptKibanaSchema_algorithm joi fields a ha hu hv⟩
  · intro file value key hf hv hk
    simp only [postDecryptFile, hf, hv, hk]
  · intro file value hf hv hk
    simp only [postDecryptFile, hf, hv, hk]
  · intro value key hv hk
    simp only [postDecryptKibana, hv, hk]
  · intro value hv hk
    simp only [postDecryptKibana, hv, hk]
  · intro message h
    have h2 := congrArg Response.status h
    simp [startedResponse, errorResponse] at h2
  · intro message
    rfl

/-! ## Background tasks -/

theorem fileTaskTry_eq (env : TaskEnv) (t : FileTask) :
    fileTaskTry env t =
      match env.mkdir (outputDir env.dirname) with
      | .error message => ([], .threw message)
      | .ok _ => awaitWorker env t.jobId t.outputFormat (fileArgs env.dirname t) := by
  unfold fileTaskTry
  cases env.mkdir (outputDir env.dirname) with
  | error message => rfl
  | ok u =>
      simp only []
      rcases h : awaitWorker env t.jobId t.outputFormat (fileArgs env.dirname t) with ⟨writes, flow⟩
      cases flow with
      | done => cases env.unlink t.filePath <;> rfl
      | threw message => rfl
      | pending => rfl

theorem tryBlock_eq (env : TaskEnv) (task : Task) :
    task.tryBlock env =
      match env.mkdir (outputDir env.dirname) with
      | .error message => ([], .threw message)
      | .ok _ => awaitWorker env task.jobId task.outputFormat (task.args env) := by
  cases task with
  | file t => exact fileTaskTry_eq env t
  | kibana t => rfl

/-- The outcome of a task read off its environment: `none` while the worker has
not terminated, the result on success, the message of the first failure
otherwise. -/
theorem run_eq (env : TaskEnv) (task : Task) :
    task.run env =
      match env.mkdir (outputDir env.dirname) with
      | .error message => ([failedWrite task.jobId env.now message], true)
      | .ok _ =>
          match runPythonDecryption (env.spawn (task.args env)) with
          | none => ([], false)
          | some (.error message) => ([failedWrite task.jobId env.now message], true)
          | some (.ok _) =>
              match env.readFile (outputPath env.dirname task.jobId) with
              | .error message => ([failedWrite task.jobId env.now message], true)
              | .ok text =>
                  match readResult env task.outputFormat text with
                  | .error message => ([failedWrite task.jobId env.now message], true)
                  | .ok result => ([completedWrite task.jobId env.now result], true) := by
  unfold Task.run
  rw [tryBlock_eq]
  cases env.mkdir (outputDir env.dirname) with
  | error message => rfl
  | ok u =>
      simp only [awaitWorker]
      cases runPythonDecryption (env.spawn (task.args env)) with
      | none => rfl
      | some r =>
          cases r with
          | error message => rfl
          | ok out =>
              simp only []
              cases env.readFile (outputPath env.dirname task.jobId) with
              | error message => rfl
              | ok text =>
                  simp only []
                  cases readResult env task.outputFormat text <;> rfl

theorem completedWrite_ne_failedWrite (jobId now : String) (result : JSValue) (message : String) :
    completedWrite jobId now result ≠ failedWrite jobId now message := by
  intro h
  have h2 := congrArg (fun w => w.fields.length) h
  simp [completedWrite, failedWrite] at h2

theorem completedWrite_inj (jobId now : String) (r r' : JSValue)
    (h : completedWrite jobId now r = completedWrite jobId now r') : r = r' := by
  simp [completedWrite] at h
  exact h

theorem mapGet_spread_completed (base : Obj) (jobId now k : String) (result : JSValue) :
    mapGet (spread base (completedWrite jobId now result).fields) k =
      if k = "downloadUrl" then some (.str ("/api/jobs/" ++ jobId ++ "/download"))
      else if k = "result" then some result
      else if k = "completedAt" then some (.str now)
      else if k = "status" then some (.str "completed")
      else mapGet base k := by
  simp [spread, completedWrite, mapGet_mapSet]

theorem mapGet_spread_failed (base : Obj) (jobId now k : String) (message : String) :
    mapGet (spread base (failedWrite jobId now message).fields) k =
      if k = "completedAt" then some (.str now)
      else if k = "error" then some (.str message)
      else if k = "status" then some (.str "failed")
      else mapGet base k := by
  simp [spread, failedWrite, mapGet_mapSet]

theorem mapGet_apply_self (jobs : JobStore) (w : JobWrite) :
    mapGet (w.apply jobs) w.jobId = some (spreadOpt (mapGet jobs w.jobId) w.fields) := by
  simp [JobWrite.apply, mapGet_mapSet]

/-- C6. Terminal outcome of a background task of either handler, for every
outcome of `mkdir`, of the worker and of the artifact read. The task's write is
the `completed` one with result `r` exactly when the worker invocation
resolved, the artifact at the job's output path was read, and `r` is the parsed
artifact for output format `json` and the raw text otherwise. A rejected
`mkdir` or worker, an unreadable artifact (whatever the worker's exit code) and
an unparsable JSON artifact each give the `failed` write with the failure's
message. A task that ends performs one of the two. On the store the first
sets status `completed` and the result, the second status `failed` and the
error. -/
theorem terminal_outcome (env : TaskEnv) (task : Task) (jobs : JobStore) :
    (∀ result, task.writes env = [completedWrite task.jobId env.now result] ↔
      ∃ out text, env.mkdir (outputDir env.dirname) = .ok () ∧
        runPythonDecryption (env.spawn (task.args env)) = some (.ok out) ∧
        env.readFile (outputPath env.dirname task.jobId) = .ok text ∧
        ((task.outputFormat = "json" ∧ env.jsonParse text = .ok result) ∨
          (task.outputFormat ≠ "json" ∧ result = .str text))) ∧
    (∀ message, env.mkdir (outputDir env.dirname) = .error message →
      task.writes env = [failedWrite task.jobId env.now message]) ∧
    (∀ message, env.mkdir (outputDir env.dirname) = .ok () →
      runPythonDecryption (env.spawn (task.args env)) = some (.error message) →
      task.writes env = [failedWrite task.jobId env.now message]) ∧
    (∀ out message, env.mkdir (outputDir env.dirname) = .ok () →
      runPythonDecryption (env.spawn (task.args env)) = some (.ok out) →
      env.readFile (outputPath env.dirname task.jobId) = .error message →
      task.writes env = [failedWrite task.jobId env.now message]) ∧
    (∀ out text message, env.mkdir (outputDir env.dirname) = .ok () →
      runPythonDecryption (env.spawn (task.args env)) = some (.ok out) →
      env.readFile (outputPath env.dirname task.jobId) = .ok text →
      task.outputFormat = "json" → env.jsonParse text = .error message →
      task.writes env = [failedWrite task.jobId env.now message]) ∧
    (task.ends env = true →
      (∃ result, task.writes env = [completedWrite task.jobId env.now result]) ∨
      (∃ message, task.writes env = [failedWrite task.jobId env.now message])) ∧
    (∀ result, ∃ record,
      mapGet ((completedWrite task.jobId env.now result).apply jobs) task.jobId = some record ∧
      mapGet record "status" = some (.str "completed") ∧
      mapGet record "result" = some result) ∧
    (∀ message, ∃ record,
      mapGet ((failedWrite task.jobId env.now message).apply jobs) task.jobId = some record ∧
      mapGet record "status" = some (.str "failed") ∧
      mapGet record "error" = some (.str message)) := by
  refine ⟨?_, ?_, ?_, ?_, ?_, ?_, ?_, ?_⟩
  · intro result
    constructor
    · intro h
      unfold Task.writes at h
      rw [run_eq] at h
      cases hm : env.mkdir (outputDir env.dirname) with
      | error message =>
          rw [hm] at h
          exact absurd (List.singleton_inj.mp h).symm (completedWrite_ne_failedWrite _ _ _ _)
      | ok u =>
          rw [hm] at h
          cases hw : runPythonDecryption (env.spawn (task.args env)) with
          | none =>
              rw [hw] at h
              simp at h
          | some r =>
              rw [hw] at h
              cases r with
              | error message =>
                  exact absurd (List.singleton_inj.mp h).symm
                    (completedWrite_ne_failedWrite _ _ _ _)
              | ok out =>
                  cases hr : env.readFile (outputPath env.dirname task.jobId) with
                  | error message =>
                      rw [hr] at h
                      exact absurd (List.singleton_inj.mp h).symm
                        (completedWrite_ne_failedWrite _ _ _ _)
                  | ok text =>
                      rw [hr] at h
                      simp only [] at h
                      cases hp : readResult env task.outputFormat text with
                      | error message =>
                          rw [hp] at h
                          exact absurd (List.singleton_inj.mp h).symm
                            (completedWrite_ne_failedWrite _ _ _ _)
                      | ok value =>
                          rw [hp] at h
                          have hv := completedWrite_inj _ _ _ _ (List.singleton_inj.mp h)
                          subst hv
                          refine ⟨out, text, rfl, rfl, rfl, ?_⟩
                          unfold readResult at hp
                          by_cases hf : task.outputFormat = "json"
                          · rw [if_pos hf] at hp
                            exact Or.inl ⟨hf, hp⟩
                          · rw [if_neg hf] at hp
                            exact Or.inr ⟨hf, (Except.ok.inj hp).symm⟩
    · rintro ⟨out, text, hm, hw, hr, hfmt⟩
      unfold Task.writes
      rw [run_eq, hm, hw, hr]
      rcases hfmt with ⟨hf, hp⟩ | ⟨hf, hres⟩
      · simp [readResult, hf, hp]
      · simp [readResult, hf, hres]
  · intro message hm
    unfold Task.writes
    rw [run_eq, hm]
  · intro message hm hw
    unfold Task.writes
    rw [run_eq, hm, hw]
  · intro out message hm hw hr
    unfold Task.writes
    rw [run_eq, hm, hw, hr]
  · intro out text message hm hw hr hf hp
    unfold Task.writes
    rw [run_eq, hm, hw, hr]
    simp [readResult, hf, hp]
  · intro he
    unfold Task.writes
    rw [run_eq]
    unfold Task.ends at he
    cases hm : env.mkdir (outputDir env.dirname) with
    | error message => exact Or.inr ⟨message, rfl⟩
    | ok u =>
        rw [hm] at he
        cases hw : runPythonDecryption (env.spawn (task.args env)) with
        | none => simp [hw] at he
        | some r =>
            cases r with
            | error message => exact Or.inr ⟨message, rfl⟩
            | ok out =>
                cases hr : env.readFile (outputPath env.dirname task.jobId) with
                | error message => exact Or.inr ⟨message, rfl⟩
                | ok text =>
                    cases hp : readResult env task.outputFormat text with
                    | error message => exact Or.inr ⟨message, by simp [hp]⟩
                    | ok result => exact Or.inl ⟨result, by simp [hp]⟩
  · intro result
    refine ⟨_, mapGet_apply_self _ _, ?_, ?_⟩
    · unfold spreadOpt
      rw [mapGet_spread_completed]
      simp
    · unfold spreadOpt
      rw [mapGet_spread_completed]
      simp
  · intro message
    refine ⟨_, mapGet_apply_self _ _, ?_, ?_⟩
    · unfold spreadOpt
      rw [mapGet_spread_failed]
      simp
    · unfold spreadOpt
      rw [mapGet_spread_failed]
      simp

/-! ## The invariant of the transition system -/

theorem hasField_eq (job : Obj) (k : String) : hasField job k = (mapGet job k).isSome :=
  mapHas_eq_isSome job k

theorem hasStatus_unique (job : Obj) (a b : String) (ha : hasStatus job a = true)
    (hb : hasStatus job b = true) : a = b := by
  unfold hasStatus at ha hb
  cases h : mapGet job "status" with
  | none => simp [h] at ha
  | some v =>
      rw [h] at ha hb
      cases v <;> simp [JSValue.isStr] at ha hb
      rw [← ha, ← hb]

theorem recordOk_spread_completed (base : Obj) (jobId now : String) (result : JSValue)
    (h : hasField base "error" = false) :
    recordOk (spread base (completedWrite jobId now result).fields) = true := by
  rw [hasField_eq] at h
  simp [recordOk, hasStatus, hasField_eq, mapGet_spread_completed, JSValue.isStr, h]

theorem recordOk_spread_failed (base : Obj) (jobId now message : String)
    (h : hasField base "result" = false) :
    recordOk (spread base (failedWrite jobId now message).fields) = true := by
  rw [hasField_eq] at h
  simp [recordOk, hasStatus, hasField_eq, mapGet_spread_failed, JSValue.isStr, h]

theorem isTerminal_spread_completed (base : Obj) (jobId now : String) (result : JSValue) :
    isTerminal (spread base (completedWrite jobId now result).fields) = true := by
  simp [isTerminal, hasStatus, mapGet_spread_completed, JSValue.isStr]

theorem isTerminal_spread_failed (base : Obj) (jobId now message : String) :
    isTerminal (spread base (failedWrite jobId now message).fields) = true := by
  simp [isTerminal, hasStatus, mapGet_spread_failed, JSValue.isStr]

theorem noOutcome_fields (job : Obj) (h : noOutcome job = true) :
    hasStatus job "processing" = true ∧ hasField job "result" = false ∧
      hasField job "error" = false := by
  simpa [noOutcome, and_assoc] using h

theorem noOutcome_not_terminal (job : Obj) (h : noOutcome job = true) :
    isTerminal job = false := by
  have hp := (noOutcome_fields job h).1
  unfold isTerminal
  cases hc : hasStatus job "completed" with
  | true => exact absurd (hasStatus_unique job _ _ hp hc) (by decide)
  | false =>
      cases hf : hasStatus job "failed" with
      | true => exact absurd (hasStatus_unique job _ _ hp hf) (by decide)
      | false => rfl

theorem run_cases (env : TaskEnv) (task : Task) :
    task.run env = ([], false) ∨
    (∃ result, task.run env = ([completedWrite task.jobId env.now result], true)) ∨
    (∃ message, task.run env = ([failedWrite task.jobId env.now message], true)) := by
  rw [run_eq]
  cases env.mkdir (outputDir env.dirname) with
  | error message => exact Or.inr (Or.inr ⟨message, rfl⟩)
  | ok u =>
      cases runPythonDecryption (env.spawn (task.args env)) with
      | none => exact Or.inl rfl
      | some r =>
          cases r with
          | error message => exact Or.inr (Or.inr ⟨message, rfl⟩)
          | ok out =>
              cases env.readFile (outputPath env.dirname task.jobId) with
              | error message => exact Or.inr (Or.inr ⟨message, rfl⟩)
              | ok text =>
                  cases hp : readResult env task.outputFormat text with
                  | error message => exact Or.inr (Or.inr ⟨message, by simp [hp]⟩)
                  | ok result => exact Or.inr (Or.inl ⟨result, by simp [hp]⟩)

theorem ends_eq (env : TaskEnv) (task : Task) : task.ends env = (task.run env).2 := by
  rw [run_eq]
  unfold Task.ends
  cases env.mkdir (outputDir env.dirname) with
  | error message => rfl
  | ok u =>
      cases runPythonDecryption (env.spawn (task.args env)) with
      | none => rfl
      | some r =>
          cases r with
          | error message => rfl
          | ok out =>
              cases env.readFile (outputPath env.dirname task.jobId) with
              | error message => rfl
              | ok text =>
                  cases hp : readResult env task.outputFormat text <;> simp [hp]

theorem postDecryptFile_shape (users : UserStore) (jobs : JobStore) (jobId now : String)
    (req : FileRequest) :
    ((postDecryptFile users jobs jobId now req).jobs = jobs ∧
      (postDecryptFile users jobs jobId now req).task = none) ∨
    ∃ record task, (postDecryptFile users jobs jobId now req).jobs = mapSet jobs jobId record ∧
      (postDecryptFile users jobs jobId now req).task = some task ∧ task.jobId = jobId ∧
      noOutcome record = true ∧ recordOk record = true := by
  unfold postDecryptFile
  cases req.file with
  | none => exact Or.inl ⟨rfl, rfl⟩
  | some file =>
      cases decryptFileSchema req.body with
      | error message => exact Or.inl ⟨rfl, rfl⟩
      | ok value =>
          simp only []
          cases (if keyMissing value.encryptionKey = true then
              getEncryptionKey users req.username else value.encryptionKey) with
          | none => exact Or.inl ⟨rfl, rfl⟩
          | some key => exact Or.inr ⟨_, _, rfl, rfl, rfl, rfl, rfl⟩

theorem postDecryptKibana_shape (joi : JoiLib) (users : UserStore) (jobs : JobStore)
    (jobId now : String) (req : KibanaRequest) :
    ((postDecryptKibana joi users jobs jobId now req).jobs = jobs ∧
      (postDecryptKibana joi users jobs jobId now req).task = none) ∨
    ∃ record task,
      (postDecryptKibana joi users jobs jobId now req).jobs = mapSet jobs jobId record ∧
      (postDecryptKibana joi users jobs jobId now req).task = some task ∧ task.jobId = jobId ∧
      noOutcome record = true ∧ recordOk record = true := by
  unfold postDecryptKibana
  cases decryptKibanaSchema joi req.body with
  | error message => exact Or.inl ⟨rfl, rfl⟩
  | ok value =>
      simp only []
      cases (if keyMissing value.encryptionKey = true then
          getEncryptionKey users req.username else value.encryptionKey) with
      | none => exact Or.inl ⟨rfl, rfl⟩
      | some key => exact Or.inr ⟨_, _, rfl, rfl, rfl, rfl, rfl⟩

theorem inv_init (users : UserStore) : Inv (Sys.init users) :=
  { records := by simp [Sys.init],
    keys := by simp [Sys.init],
    inflight := by simp [Sys.init],
    distinct := by simp [Sys.init] }

theorem inv_afterCreate (s : Sys) (jobId : String) (c : Created) (hinv : Inv s)
    (hfresh : jobId ∉ s.issued)
    (hc : (c.jobs = s.jobs ∧ c.task = none) ∨
      ∃ record task, c.jobs = mapSet s.jobs jobId record ∧ c.task = some task ∧
        task.jobId = jobId ∧ noOutcome record = true ∧ recordOk record = true) :
    Inv (s.afterCreate jobId c) := by
  rcases hc with ⟨hj, ht⟩ | ⟨record, task, hj, ht, hid, hno, hok⟩
  · refine ⟨?_, ?_, ?_, ?_⟩
    · intro e he
      simp only [Sys.afterCreate, hj] at he
      exact hinv.records e he
    · intro e he
      simp only [Sys.afterCreate, hj] at he
      simp only [Sys.afterCreate]
      exact List.mem_cons_of_mem _ (hinv.keys e he)
    · intro t htm
      simp only [Sys.afterCreate, ht, Option.toList, List.append_nil] at htm
      simp only [Sys.afterCreate, hj]
      exact ⟨List.mem_cons_of_mem _ (hinv.inflight t htm).1, (hinv.inflight t htm).2⟩
    · simp only [Sys.afterCreate, ht, Option.toList, List.append_nil]
      exact hinv.distinct
  · refine ⟨?_, ?_, ?_, ?_⟩
    · intro e he
      simp only [Sys.afterCreate, hj] at he
      rcases mem_mapSet _ _ _ _ he with ⟨hm, _⟩ | heq
      · exact hinv.records e hm
      · rw [heq]
        exact hok
    · intro e he
      simp only [Sys.afterCreate, hj] at he
      simp only [Sys.afterCreate]
      rcases mem_mapSet _ _ _ _ he with ⟨hm, _⟩ | heq
      · exact List.mem_cons_of_mem _ (hinv.keys e hm)
      · rw [heq]
        exact List.mem_cons_self _ _
    · intro t htm
      simp only [Sys.afterCreate, ht, Option.toList, List.mem_append, List.mem_singleton] at htm
      simp only [Sys.afterCreate, hj]
      rcases htm with htm | htm
      · refine ⟨List.mem_cons_of_mem _ (hinv.inflight t htm).1, ?_⟩
        intro e he hk
        rcases mem_mapSet _ _ _ _ he with ⟨hm, _⟩ | heq
        · exact (hinv.inflight t htm).2 e hm hk
        · exfalso
          apply hfresh
          have : t.jobId = jobId := by rw [← hk, heq]
          rw [← this]
          exact (hinv.inflight t htm).1
      · subst htm
        refine ⟨by rw [hid]; exact List.mem_cons_self _ _, ?_⟩
        intro e he hk
        rcases mem_mapSet _ _ _ _ he with ⟨_, hne⟩ | heq
        · exact absurd (hk.trans hid) hne
        · rw [heq]
          exact hno
    · simp only [Sys.afterCreate, ht, Option.toList, List.map_append, List.map_cons,
        List.map_nil]
      rw [List.nodup_append]
      refine ⟨hinv.distinct, List.nodup_singleton _, ?_⟩
      intro a ha hb
      rw [List.mem_singleton] at hb
      rw [List.mem_map] at ha
      obtain ⟨t, htm, hta⟩ := ha
      apply hfresh
      rw [← hid, ← hb, ← hta]
      exact (hinv.inflight t htm).1

theorem recordOk_terminal (jobs : JobStore) (jobId : String) (w : JobWrite)
    (hin : ∀ e ∈ jobs, e.1 = jobId → noOutcome e.2 = true)
    (hw : (∃ now result, w = completedWrite jobId now result) ∨
      (∃ now message, w = failedWrite jobId now message)) :
    recordOk (spreadOpt (mapGet jobs jobId) w.fields) = true := by
  have hbase : hasField ((mapGet jobs jobId).getD []) "result" = false ∧
      hasField ((mapGet jobs jobId).getD []) "error" = false := by
    cases hg : mapGet jobs jobId with
    | none => exact ⟨rfl, rfl⟩
    | some job =>
        have := noOutcome_fields job (hin _ (mem_of_mapGet _ _ _ hg) rfl)
        exact ⟨this.2.1, this.2.2⟩
  unfold spreadOpt
  rcases hw with ⟨now, result, rfl⟩ | ⟨now, message, rfl⟩
  · exact recordOk_spread_completed _ _ _ _ hbase.2
  · exact recordOk_spread_failed _ _ _ _ hbase.1

theorem inv_write (s : Sys) (task : Task) (w : JobWrite) (hinv : Inv s) (ht : task ∈ s.tasks)
    (hw : (∃ now result, w = completedWrite task.jobId now result) ∨
      (∃ now message, w = failedWrite task.jobId now message)) :
    Inv { s with jobs := w.apply s.jobs,
                 tasks := s.tasks.filter (fun t => !(t.jobId == task.jobId)) } := by
  have hid : w.jobId = task.jobId := by
    rcases hw with ⟨now, result, rfl⟩ | ⟨now, message, rfl⟩ <;> rfl
  refine ⟨?_, ?_, ?_, ?_⟩
  · intro e he
    simp only [JobWrite.apply, hid] at he
    rcases mem_mapSet _ _ _ _ he with ⟨hm, _⟩ | heq
    · exact hinv.records e hm
    · rw [heq]
      exact recordOk_terminal s.jobs task.jobId w (hinv.inflight task ht).2 hw
  · intro e he
    simp only [JobWrite.apply, hid] at he
    rcases mem_mapSet _ _ _ _ he with ⟨hm, _⟩ | heq
    · exact hinv.keys e hm
    · rw [heq]
      exact (hinv.inflight task ht).1
  · intro t htm
    simp only [List.mem_filter, Bool.not_eq_true', beq_eq_false_iff_ne, ne_eq] at htm
    refine ⟨(hinv.inflight t htm.1).1, ?_⟩
    intro e he hk
    simp only [JobWrite.apply, hid] at he
    rcases mem_mapSet _ _ _ _ he with ⟨hm, _⟩ | heq
    · exact (hinv.inflight t htm.1).2 e hm hk
    · exfalso
      apply htm.2
      rw [← hk, heq]
  · exact List.Nodup.sublist (List.Sublist.map _ (List.filter_sublist _)) hinv.distinct

theorem step_taskEnds (joi : JoiLib) (s s' : Sys) (jobId : String) (env : TaskEnv)
    (h : step joi s (.taskEnds jobId env) = some s') :
    ∃ task, task ∈ s.tasks ∧ task.jobId = jobId ∧
      ((task.ends env = false ∧ s' = s) ∨
       (task.ends env = true ∧ ∃ w, task.writes env = [w] ∧
          ((∃ result, w = completedWrite jobId env.now result) ∨
            (∃ message, w = failedWrite jobId env.now message)) ∧
          s' = { s with jobs := w.apply s.jobs,
                        tasks := s.tasks.filter (fun t => !(t.jobId == jobId)) })) := by
  simp only [step] at h
  cases hf : s.tasks.find? (fun t => t.jobId == jobId) with
  | none => simp [hf] at h
  | some task =>
      rw [hf] at h
      simp only [] at h
      have hmem : task ∈ s.tasks := List.mem_of_find?_eq_some hf
      have hid : task.jobId = jobId := by
        have := List.find?_some hf
        simpa using this
      refine ⟨task, hmem, hid, ?_⟩
      rw [ends_eq]
      unfold Task.writes
      rcases run_cases env task with hr | ⟨result, hr⟩ | ⟨message, hr⟩
      · rw [hr] at h
        simp only [List.foldl_nil, Option.some.injEq] at h
        left
        rw [hr]
        exact ⟨rfl, h.symm⟩
      · rw [hr] at h
        simp only [List.foldl_cons, List.foldl_nil, Option.some.injEq] at h
        right
        rw [hr]
        refine ⟨rfl, _, rfl, Or.inl ⟨result, by rw [hid]⟩, ?_⟩
        rw [← h]
      · rw [hr] at h
        simp only [List.foldl_cons, List.foldl_nil, Option.some.injEq] at h
        right
        rw [hr]
        refine ⟨rfl, _, rfl, Or.inr ⟨message, by rw [hid]⟩, ?_⟩
        rw [← h]

theorem inv_step (joi : JoiLib) (s s' : Sys) (a : Action) (hinv : Inv s)
    (h : step joi s a = some s') : Inv s' := by
  cases a with
  | createFile jobId now req =>
      simp only [step] at h
      by_cases hi : jobId ∈ s.issued
      · simp [hi] at h
      · rw [if_neg hi, Option.some.injEq] at h
        rw [← h]
        exact inv_afterCreate s jobId _ hinv hi (postDecryptFile_shape _ _ _ _ _)
  | createKibana jobId now req =>
      simp only [step] at h
      by_cases hi : jobId ∈ s.issued
      · simp [hi] at h
      · rw [if_neg hi, Option.some.injEq] at h
        rw [← h]
        exact inv_afterCreate s jobId _ hinv hi (postDecryptKibana_shape _ _ _ _ _ _)
  | taskEnds jobId env =>
      obtain ⟨task, hmem, hid, hcase⟩ := step_taskEnds joi s s' jobId env h
      rcases hcase with ⟨_, hs⟩ | ⟨_, w, _, hw, hs⟩
      · rw [hs]
        exact hinv
      · rw [hs, ← hid]
        apply inv_write s task w hinv hmem
        rw [hid]
        rcases hw with ⟨result, hw⟩ | ⟨message, hw⟩
        · exact Or.inl ⟨_, result, hw⟩
        · exact Or.inr ⟨_, message, hw⟩
  | deleteLookup jobId =>
      simp only [step] at h
      cases hl : deleteJobLookup s.jobs jobId with
      | some r =>
          rw [hl, Option.some.injEq] at h
          rw [← h]
          exact hinv
      | none =>
          rw [hl, Option.some.injEq] at h
          rw [← h]
          exact ⟨hinv.records, hinv.keys, hinv.inflight, hinv.distinct⟩
  | deleteCommit jobId =>
      simp only [step] at h
      by_cases hd : jobId ∈ s.deleting
      · rw [if_pos hd, Option.some.injEq] at h
        rw [← h]
        refine ⟨?_, ?_, ?_, hinv.distinct⟩
        · intro e he
          simp only [deleteJobCommit, mem_mapDelete] at he
          exact hinv.records e he.1
        · intro e he
          simp only [deleteJobCommit, mem_mapDelete] at he
          exact hinv.keys e he.1
        · intro t htm
          refine ⟨(hinv.inflight t htm).1, ?_⟩
          intro e he hk
          simp only [deleteJobCommit, mem_mapDelete] at he
          exact (hinv.inflight t htm).2 e he.1 hk
      · simp [hd] at h
  | updateKey username encryptionKey now =>
      simp only [step] at h
      cases hu : updateEncryptionKey s.users username encryptionKey now with
      | none =>
          rw [hu, Option.some.injEq] at h
          rw [← h]
          exact hinv
      | some users =>
          rw [hu, Option.some.injEq] at h
          rw [← h]
          exact ⟨hinv.records, hinv.keys, hinv.inflight, hinv.distinct⟩

theorem inv_run (joi : JoiLib) (actions : List Action) (s s' : Sys) (hinv : Inv s)
    (h : run joi s actions = some s') : Inv s' := by
  induction actions generalizing s with
  | nil =>
      simp only [run, Option.some.injEq] at h
      rw [← h]
      exact hinv
  | cons a rest ih =>
      simp only [run] at h
      cases hs : step joi s a with
      | none => simp [hs] at h
      | some s1 =>
          rw [hs] at h
          exact ih s1 (inv_step joi s s1 a hinv hs) h

theorem inv_reachable (joi : JoiLib) (users : UserStore) (actions : List Action) (s : Sys)
    (h : run joi (Sys.init users) actions = some s) : Inv s :=
  inv_run joi actions _ s (inv_init users) h

theorem afterCreate_tasks (s : Sys) (jobId : String) (c : Created)
    (hc : (c.jobs = s.jobs ∧ c.task = none) ∨
      ∃ record task, c.jobs = mapSet s.jobs jobId record ∧ c.task = some task ∧
        task.jobId = jobId ∧ noOutcome record = true ∧ recordOk record = true)
    (t : Task) (ht : t ∈ (s.afterCreate jobId c).tasks) : t ∈ s.tasks ∨ t.jobId = jobId := by
  simp only [Sys.afterCreate, List.mem_append] at ht
  rcases ht with ht | ht
  · exact Or.inl ht
  · rcases hc with ⟨_, hn⟩ | ⟨record, task, _, hsome, hid, _, _⟩
    · simp [hn] at ht
    · simp only [hsome, Option.toList, List.mem_singleton] at ht
      right
      rw [ht, hid]

theorem afterCreate_get (s : Sys) (jobId id : String) (c : Created) (hne : id ≠ jobId)
    (hc : (c.jobs = s.jobs ∧ c.task = none) ∨
      ∃ record task, c.jobs = mapSet s.jobs jobId record ∧ c.task = some task ∧
        task.jobId = jobId ∧ noOutcome record = true ∧ recordOk record = true) :
    mapGet (s.afterCreate jobId c).jobs id = mapGet s.jobs id := by
  rcases hc with ⟨hj, _⟩ | ⟨record, task, hj, _, _, _, _⟩
  · simp only [Sys.afterCreate, hj]
  · simp only [Sys.afterCreate, hj, mapGet_mapSet, if_neg hne]

theorem step_tasks (joi : JoiLib) (s s' : Sys) (a : Action) (h : step joi s a = some s') :
    (∀ t ∈ s'.tasks, t ∈ s.tasks ∨ t.jobId ∉ s.issued) ∧ (∀ id ∈ s.issued, id ∈ s'.issued) := by
  cases a with
  | createFile jobId now req =>
      simp only [step] at h
      by_cases hi : jobId ∈ s.issued
      · simp [hi] at h
      · rw [if_neg hi, Option.some.injEq] at h
        rw [← h]
        refine ⟨?_, ?_⟩
        · intro t ht
          rcases afterCreate_tasks s jobId _ (postDecryptFile_shape _ _ _ _ _) t ht with h1 | h1
          · exact Or.inl h1
          · exact Or.inr (by rw [h1]; exact hi)
        · intro id hid
          exact List.mem_cons_of_mem _ hid
  | createKibana jobId now req =>
      simp only [step] at h
      by_cases hi : jobId ∈ s.issued
      · simp [hi] at h
      · rw [if_neg hi, Option.some.injEq] at h
        rw [← h]
        refine ⟨?_, ?_⟩
        · intro t ht
          rcases afterCreate_tasks s jobId _ (postDecryptKibana_shape _ _ _ _ _ _) t ht
            with h1 | h1
          · exact Or.inl h1
          · exact Or.inr (by rw [h1]; exact hi)
        · intro id hid
          exact List.mem_cons_of_mem _ hid
  | taskEnds jobId env =>
      obtain ⟨task, hmem, hid, hcase⟩ := step_taskEnds joi s s' jobId env h
      rcases hcase with ⟨_, hs⟩ | ⟨_, w, _, hw, hs⟩
      · rw [hs]
        exact ⟨fun t ht => Or.inl ht, fun id hi => hi⟩
      · rw [hs]
        exact ⟨fun t ht => Or.inl (List.mem_filter.mp ht).1, fun id hi => hi⟩
  | deleteLookup jobId =>
      simp only [step] at h
      cases hl : deleteJobLookup s.jobs jobId with
      | some r =>
          rw [hl, Option.some.injEq] at h
          rw [← h]
          exact ⟨fun t ht => Or.inl ht, fun id hi => hi⟩
      | none =>
          rw [hl, Option.some.injEq] at h
          rw [← h]
          exact ⟨fun t ht => Or.inl ht, fun id hi => hi⟩
  | deleteCommit jobId =>
      simp only [step] at h
      by_cases hd : jobId ∈ s.deleting
      · rw [if_pos hd, Option.some.injEq] at h
        rw [← h]
        exact ⟨fun t ht => Or.inl ht, fun id hi => hi⟩
      · simp [hd] at h
  | updateKey username encryptionKey now =>
      simp only [step] at h
      cases hu : updateEncryptionKey s.users username encryptionKey now with
      | none =>
          rw [hu, Option.some.injEq] at h
          rw [← h]
          exact ⟨fun t ht => Or.inl ht, fun id hi => hi⟩
      | some users =>
          rw [hu, Option.some.injEq] at h
          rw [← h]
          exact ⟨fun t ht => Or.inl ht, fun id hi => hi⟩

theorem terminal_stable (joi : JoiLib) (s s' : Sys) (a : Action) (hinv : Inv s)
    (h : step joi s a = some s') (id : String) (job : Obj)
    (hg : mapGet s.jobs id = some job) (ht : isTerminal job = true) :
    mapGet s'.jobs id = some job ∨ mapGet s'.jobs id = none := by
  have hmem : (id, job) ∈ s.jobs := mem_of_mapGet _ _ _ hg
  have hiss : id ∈ s.issued := hinv.keys _ hmem
  cases a with
  | createFile jobId now req =>
      simp only [step] at h
      by_cases hi : jobId ∈ s.issued
      · simp [hi] at h
      · rw [if_neg hi, Option.some.injEq] at h
        rw [← h, afterCreate_get s jobId id _ (fun he => hi (he ▸ hiss))
          (postDecryptFile_shape _ _ _ _ _)]
        exact Or.inl hg
  | createKibana jobId now req =>
      simp only [step] at h
      by_cases hi : jobId ∈ s.issued
      · simp [hi] at h
      · rw [if_neg hi, Option.some.injEq] at h
        rw [← h, afterCreate_get s jobId id _ (fun he => hi (he ▸ hiss))
          (postDecryptKibana_shape _ _ _ _ _ _)]
        exact Or.inl hg
  | taskEnds jobId env =>
      obtain ⟨task, hmem', hid, hcase⟩ := step_taskEnds joi s s' jobId env h
      rcases hcase with ⟨_, hs⟩ | ⟨_, w, _, hw, hs⟩
      · rw [hs]
        exact Or.inl hg
      · have hne : id ≠ jobId := by
          intro he
          have hno := (hinv.inflight task hmem').2 (id, job) hmem (by rw [hid, he])
          rw [noOutcome_not_terminal job hno] at ht
          exact Bool.false_ne_true ht
        have hwid : w.jobId = jobId := by
          rcases hw with ⟨r, rfl⟩ | ⟨m, rfl⟩ <;> rfl
        rw [hs]
        simp only [JobWrite.apply, hwid, mapGet_mapSet, if_neg hne]
        exact Or.inl hg
  | deleteLookup jobId =>
      simp only [step] at h
      cases hl : deleteJobLookup s.jobs jobId with
      | some r =>
          rw [hl, Option.some.injEq] at h
          rw [← h]
          exact Or.inl hg
      | none =>
          rw [hl, Option.some.injEq] at h
          rw [← h]
          exact Or.inl hg
  | deleteCommit jobId =>
      simp only [step] at h
      by_cases hd : jobId ∈ s.deleting
      · rw [if_pos hd, Option.some.injEq] at h
        rw [← h]
        simp only [deleteJobCommit, mapGet_mapDelete]
        by_cases he : id = jobId
        · exact Or.inr (by simp [he])
        · exact Or.inl (by simp [he, hg])
      · simp [hd] at h
  | updateKey username encryptionKey now =>
      simp only [step] at h
      cases hu : updateEncryptionKey s.users username encryptionKey now with
      | none =>
          rw [hu, Option.some.injEq] at h
          rw [← h]
          exact Or.inl hg
      | some users =>
          rw [hu, Option.some.injEq] at h
          rw [← h]
          exact Or.inl hg

/-! ## The data-model invariant in every reachable state -/

theorem recordOk_spelled (job : Obj) (h : recordOk job = true) :
    (hasStatus job "processing" = true →
      hasField job "result" = false ∧ hasField job "error" = false) ∧
    (hasStatus job "completed" = true →
      hasField job "result" = true ∧ hasField job "error" = false) ∧
    (hasStatus job "failed" = true →
      hasField job "error" = true ∧ hasField job "result" = false) := by
  unfold recordOk at h
  simp only [Bool.and_eq_true, Bool.or_eq_true, Bool.not_eq_true'] at h
  obtain ⟨⟨h1, h2⟩, h3⟩ := h
  refine ⟨?_, ?_, ?_⟩
  · intro hs
    rcases h1 with h1 | h1
    · rw [hs] at h1
      exact absurd h1 (by decide)
    · exact h1
  · intro hs
    rcases h2 with h2 | h2
    · rw [hs] at h2
      exact absurd h2 (by decide)
    · exact h2
  · intro hs
    rcases h3 with h3 | h3
    · rw [hs] at h3
      exact absurd h3 (by decide)
    · exact h3

/-- C2. In every state the service can reach from start-up by any
interleaving of create requests, task endings, the two halves of delete
requests and profile updates, every record of the job store (hence every
record a handler or a background task has written) has neither result nor
error when its status is `processing`, a result and no error when it is
`completed`, and an error and no result when it is `failed`. -/
theorem records_well_formed (joi : JoiLib) (users : UserStore) (actions : List Action) (s : Sys)
    (h : run joi (Sys.init users) actions = some s) :
    (∀ e ∈ s.jobs,
      (hasStatus e.2 "processing" = true →
        hasField e.2 "result" = false ∧ hasField e.2 "error" = false) ∧
      (hasStatus e.2 "completed" = true →
        hasField e.2 "result" = true ∧ hasField e.2 "error" = false) ∧
      (hasStatus e.2 "failed" = true →
        hasField e.2 "error" = true ∧ hasField e.2 "result" = false)) ∧
    (∀ jobId job, mapGet s.jobs jobId = some job →
      (hasStatus job "processing" = true →
        hasField job "result" = false ∧ hasField job "error" = false) ∧
      (hasStatus job "completed" = true →
        hasField job "result" = true ∧ hasField job "error" = false) ∧
      (hasStatus job "failed" = true →
        hasField job "error" = true ∧ hasField job "result" = false)) := by
  have hinv := inv_reachable joi users actions s h
  refine ⟨?_, ?_⟩
  · intro e he
    exact recordOk_spelled e.2 (hinv.records e he)
  · intro jobId job hg
    exact recordOk_spelled job (hinv.records _ (mem_of_mapGet _ _ _ hg))

/-- C2 on a run with a failed job and a job deleted while in flight. -/
theorem records_well_formed_witness :
    run sampleJoi (Sys.init sampleUsers) mixedRun = some mixedFinal ∧
    ((∀ e ∈ mixedFinal.jobs,
      (hasStatus e.2 "processing" = true →
        hasField e.2 "result" = false ∧ hasField e.2 "error" = false) ∧
      (hasStatus e.2 "completed" = true →
        hasField e.2 "result" = true ∧ hasField e.2 "error" = false) ∧
      (hasStatus e.2 "failed" = true →
        hasField e.2 "error" = true ∧ hasField e.2 "result" = false)) ∧
    (∀ jobId job, mapGet mixedFinal.jobs jobId = some job →
      (hasStatus job "processing" = true →
        hasField job "result" = false ∧ hasField job "error" = false) ∧
      (hasStatus job "completed" = true →
        hasField job "result" = true ∧ hasField job "error" = false) ∧
      (hasStatus job "failed" = true →
        hasField job "error" = true ∧ hasField job "result" = false))) :=
  ⟨rfl, records_well_formed sampleJoi sampleUsers mixedRun mixedFinal rfl⟩

/-! ## Exactly one terminal transition -/

theorem writes_shape (env : TaskEnv) (task : Task) :
    (task.writes env).length ≤ 1 ∧
    ((task.writes env).length = 1 ↔ task.ends env = true) ∧
    (∀ w ∈ task.writes env, w.jobId = task.jobId ∧
      (mapGet w.fields "status" = some (.str "completed") ∨
        mapGet w.fields "status" = some (.str "failed"))) := by
  rw [ends_eq]
  unfold Task.writes
  rcases run_cases env task with hr | ⟨result, hr⟩ | ⟨message, hr⟩
  · rw [hr]
    simp
  · rw [hr]
    refine ⟨by simp, by simp, ?_⟩
    intro w hw
    rw [List.mem_singleton] at hw
    subst hw
    exact ⟨rfl, Or.inl rfl⟩
  · rw [hr]
    refine ⟨by simp, by simp, ?_⟩
    intro w hw
    rw [List.mem_singleton] at hw
    subst hw
    exact ⟨rfl, Or.inr rfl⟩

/-! ## A terminal write after deletion -/

theorem spread_nil_completed (jobId now : String) (result : JSValue) :
    spread [] (completedWrite jobId now result).fields = (completedWrite jobId now result).fields := by
  rfl

theorem spread_nil_failed (jobId now message : String) :
    spread [] (failedWrite jobId now message).fields = (failedWrite jobId now message).fields := by
  rfl

theorem lateWriteRun_before :
    (run sampleJoi (Sys.init sampleUsers) (lateWriteRun.take 3)).map Sys.jobs = some [] := by
  rfl

theorem lateWriteRun_after :
    (run sampleJoi (Sys.init sampleUsers) lateWriteRun).map Sys.jobs =
      some [("j1", lateRecord)] := by
  rfl

/-- C3, as stated, fails. The upload job `j1` is deleted while its task is in
flight: the store is then empty, a poll answers 404 and the list total is 0.
When the task ends, its write stores a record under `j1` again: the poll
answers 200 with status `completed` and the list total is 1. -/
theorem late_write_counterexample :
    (run sampleJoi (Sys.init sampleUsers) (lateWriteRun.take 3)).map Sys.jobs = some [] ∧
    getJob sampleStringify [] "j1" = errorResponse 404 "Job not found" ∧
    listJobs [] =
      { status := 200, body := .obj [("total", .num (.finite 0)), ("jobs", .arr [])] } ∧
    (run sampleJoi (Sys.init sampleUsers) lateWriteRun).map Sys.jobs =
      some [("j1", lateRecord)] ∧
    getJob sampleStringify [("j1", lateRecord)] "j1" =
      { status := 200,
        body := .obj [("status", .str "completed"),
                      ("completedAt", .str "2024-01-01T00:00:05.000Z"),
                      ("downloadUrl", .str "/api/jobs/j1/download"),
                      ("hasResult", .bool true), ("resultSize", .num (.finite 2))] } ∧
    listJobs [("j1", lateRecord)] =
      { status := 200,
        body := .obj [("total", .num (.finite 1)),
                      ("jobs", .arr [.obj [("status", .str "completed"),
                        ("completedAt", .str "2024-01-01T00:00:05.000Z"),
                        ("downloadUrl", .str "/api/jobs/j1/download")]])] } := by
  refine ⟨lateWriteRun_before, rfl, ?_, lateWriteRun_after, ?_, ?_⟩
  · simp [listJobs]
  · simp [getJob, lateRecord, mapGet, withoutKey, mapDelete, spread, mapSet, mapHas,
      JSValue.truthy, sampleStringify, jsLength]
  · simp [listJobs, lateRecord, withoutKey, mapDelete]

/-- C3, amended. When the store has no record for a task's job (the job was
deleted while the task was in flight), the task's terminal write is not
dropped: it appends a record under the job id that consists of the write's
own properties only (a terminal status, `completedAt`, and either `result` and
`downloadUrl` or `error`; no `id`, no `createdAt`); a poll of the id then answers
200 with that status, the number of records, which is the list total, grows
by one, and the record under every other id is unchanged. -/
theorem late_write_effect (stringify : JSValue → String) (env : TaskEnv) (task : Task)
    (jobs : JobStore) (w : JobWrite)
    (hdel : mapGet jobs task.jobId = none) (hw : w ∈ task.writes env) :
    w.apply jobs = jobs ++ [(task.jobId, w.fields)] ∧
    mapGet (w.apply jobs) task.jobId = some w.fields ∧
    isTerminal w.fields = true ∧
    mapGet w.fields "id" = none ∧ mapGet w.fields "createdAt" = none ∧
    (∃ fields, getJob stringify (w.apply jobs) task.jobId =
        { status := 200, body := .obj fields } ∧
      mapGet fields "status" = mapGet w.fields "status") ∧
    (w.apply jobs).length = jobs.length + 1 ∧
    (∀ other, other ≠ task.jobId → mapGet (w.apply jobs) other = mapGet jobs other) := by
  have hshape : w.jobId = task.jobId ∧ spread [] w.fields = w.fields ∧
      isTerminal w.fields = true ∧ mapGet w.fields "id" = none ∧
      mapGet w.fields "createdAt" = none := by
    unfold Task.writes at hw
    rcases run_cases env task with hr | ⟨result, hr⟩ | ⟨message, hr⟩
    · rw [hr] at hw
      simp at hw
    · rw [hr, List.mem_singleton] at hw
      subst hw
      exact ⟨rfl, rfl, rfl, rfl, rfl⟩
    · rw [hr, List.mem_singleton] at hw
      subst hw
      exact ⟨rfl, rfl, rfl, rfl, rfl⟩
  obtain ⟨hid, hsp, hterm, hnoid, hnocreated⟩ := hshape
  have happ : w.apply jobs = jobs ++ [(task.jobId, w.fields)] := by
    unfold JobWrite.apply mapSet
    rw [hid, mapHas_eq_isSome, hdel]
    simp [spreadOpt, hsp]
  have hget : mapGet (w.apply jobs) task.jobId = some w.fields := by
    rw [happ, mapGet_append_single, hdel]
    simp
  refine ⟨happ, hget, hterm, hnoid, hnocreated, ?_, ?_, ?_⟩
  · refine ⟨_, by simp only [getJob, hget]; rfl, ?_⟩
    rw [mapGet_spread_two]
    simp [withoutKey, mapGet_mapDelete]
  · rw [happ]
    simp
  · intro other ho
    rw [happ, mapGet_append_single]
    cases mapGet jobs other with
    | none => simp [Ne.symm ho]
    | some job => rfl

/-- The amended C3 at the late write of the run `lateWriteRun`. -/
theorem late_write_effect_witness :
    mapGet ([] : JobStore) sampleFileTask.jobId = none ∧
    completedWrite "j1" "2024-01-01T00:00:05.000Z" (.arr []) ∈
      sampleFileTask.writes (sampleEnv cleanExit (.ok "[]")) ∧
    ((completedWrite "j1" "2024-01-01T00:00:05.000Z" (.arr [])).apply [] =
      [] ++ [(sampleFileTask.jobId,
        (completedWrite "j1" "2024-01-01T00:00:05.000Z" (.arr [])).fields)] ∧
    mapGet ((completedWrite "j1" "2024-01-01T00:00:05.000Z" (.arr [])).apply [])
      sampleFileTask.jobId =
      some (completedWrite "j1" "2024-01-01T00:00:05.000Z" (.arr [])).fields ∧
    isTerminal (completedWrite "j1" "2024-01-01T00:00:05.000Z" (.arr [])).fields = true ∧
    mapGet (completedWrite "j1" "2024-01-01T00:00:05.000Z" (.arr [])).fields "id" = none ∧
    mapGet (completedWrite "j1" "2024-01-01T00:00:05.000Z" (.arr [])).fields "createdAt" =
      none ∧
    (∃ fields, getJob sampleStringify
        ((completedWrite "j1" "2024-01-01T00:00:05.000Z" (.arr [])).apply [])
        sampleFileTask.jobId = { status := 200, body := .obj fields } ∧
      mapGet fields "status" =
        mapGet (completedWrite "j1" "2024-01-01T00:00:05.000Z" (.arr [])).fields "status") ∧
    ((completedWrite "j1" "2024-01-01T00:00:05.000Z" (.arr [])).apply []).length =
      ([] : JobStore).length + 1 ∧
    (∀ other, other ≠ sampleFileTask.jobId →
      mapGet ((completedWrite "j1" "2024-01-01T00:00:05.000Z" (.arr [])).apply []) other =
        mapGet ([] : JobStore) other)) :=
  ⟨rfl, List.mem_singleton.mpr rfl,
    late_write_effect sampleStringify (sampleEnv cleanExit (.ok "[]")) sampleFileTask []
      (completedWrite "j1" "2024-01-01T00:00:05.000Z" (.arr [])) rfl
      (List.mem_singleton.mpr rfl)⟩

/-! ## Worker arguments -/

theorem joiString_ok (label : String) (v : Option JSValue) (r : Option String)
    (h : joiString label false v = .ok r) :
    r ≠ some "" ∧ (r.isSome = true ↔ isGiven v = true) := by
  unfold joiString at h
  split at h
  · cases h
    simp [isGiven]
  · cases h
    simp [isGiven]
  · rename_i s
    by_cases hs : s = ""
    · simp [hs] at h
    · simp only [hs, if_false] at h
      cases h
      simp [hs, isGiven]
  · simp at h

theorem joiObject_ok (joi : JoiLib) (v : Option JSValue) (r : Option Obj)
    (h : joiObject joi v = .ok r) :
    (r.isSome = true ↔ isGiven v = true) := by
  unfold joiObject at h
  split at h
  · cases h
    simp [isGiven]
  · cases h
    simp [isGiven]
  · cases h
    simp [isGiven]
  · rename_i s
    cases ho : joi.toObject s with
    | none => simp [ho] at h
    | some fields =>
        simp only [ho] at h
        cases h
        simp [isGiven]
  · simp at h

theorem joiSize_check_ok (n : JSNumber) (size : Nat) (h : joiSize.check n = .ok size) :
    1 ≤ size ∧ size ≤ 10000 := by
  unfold joiSize.check at h
  split at h
  · rename_i q
    split at h
    · simp at h
    · split at h
      · simp at h
      · rename_i hden
        split at h
        · simp at h
        · rename_i h1
          split at h
          · simp at h
          · rename_i h2
            have hd : q.den = 1 := by
              by_contra hne
              exact hden hne
            have hq : ((q.num : Int) : Rat) = q := Rat.coe_int_num_of_den_eq_one hd
            have hlo : (1 : Int) ≤ q.num := by
              have : ((1 : Int) : Rat) ≤ ((q.num : Int) : Rat) := by
                rw [hq]
                push_cast
                exact not_lt.mp h1
              exact_mod_cast this
            have hhi : q.num ≤ (10000 : Int) := by
              have : ((q.num : Int) : Rat) ≤ ((10000 : Int) : Rat) := by
                rw [hq]
                push_cast
                exact not_lt.mp h2
              exact_mod_cast this
            cases h
            omega
  · simp at h
  · simp at h

theorem joiSize_ok (joi : JoiLib) (v : Option JSValue) (size : Nat)
    (h : joiSize joi v = .ok size) : 1 ≤ size ∧ size ≤ 10000 := by
  unfold joiSize at h
  split at h
  · cases h
    omega
  · cases h
    omega
  · exact joiSize_check_ok _ _ h
  · rename_i s
    cases hn : joi.toNumber s with
    | none => simp [hn] at h
    | some n =>
        simp only [hn] at h
        exact joiSize_check_ok _ _ h
  · simp at h

theorem decryptKibanaSchema_ok (joi : JoiLib) (body : JSValue) (value : KibanaValue)
    (h : decryptKibanaSchema joi body = .ok value) :
    ∃ fields, body = .obj fields ∧
      joiObject joi (mapGet fields "query") = .ok value.query ∧
      joiSize joi (mapGet fields "size") = .ok value.size ∧
      joiString "username" false (mapGet fields "username") = .ok value.username ∧
      joiString "password" false (mapGet fields "password") = .ok value.password ∧
      joiString "apiKey" false (mapGet fields "apiKey") = .ok value.apiKey := by
  cases body with
  | obj fields =>
      refine ⟨fields, rfl, ?_⟩
      simp only [decryptKibanaSchema, bind, Except.bind] at h
      cases h1 : joiStringRequired "elasticsearchUrl" (mapGet fields "elasticsearchUrl") with
      | error e => simp [h1] at h
      | ok url =>
      rw [h1] at h
      simp only [] at h
      by_cases huri : (!joi.isUri url) = true
      · simp [huri] at h
      · rw [if_neg huri] at h
        simp only [pure, Except.pure] at h
        cases h2 : joiStringRequired "index" (mapGet fields "index") with
        | error e => simp [h2] at h
        | ok index =>
        rw [h2] at h
        simp only [] at h
        cases h3 : joiString "encryptionKey" true (mapGet fields "encryptionKey") with
        | error e => simp [h3] at h
        | ok key =>
        rw [h3] at h
        simp only [] at h
        cases h4 : joiValid "algorithm" algorithms "AES-256-CBC" (mapGet fields "algorithm") with
        | error e => simp [h4] at h
        | ok algorithm =>
        rw [h4] at h
        simp only [] at h
        cases h5 : joiStringDefault "field" "message" (mapGet fields "field") with
        | error e => simp [h5] at h
        | ok field =>
        rw [h5] at h
        simp only [] at h
        cases h6 : joiObject joi (mapGet fields "query") with
        | error e => simp [h6] at h
        | ok query =>
        rw [h6] at h
        simp only [] at h
        cases h7 : joiSize joi (mapGet fields "size") with
        | error e => simp [h7] at h
        | ok size =>
        rw [h7] at h
        simp only [] at h
        cases h8 : joiString "username" false (mapGet fields "username") with
        | error e => simp [h8] at h
        | ok username =>
        rw [h8] at h
        simp only [] at h
        cases h9 : joiString "password" false (mapGet fields "password") with
        | error e => simp [h9] at h
        | ok password =>
        rw [h9] at h
        simp only [] at h
        cases h10 : joiString "apiKey" false (mapGet fields "apiKey") with
        | error e => simp [h10] at h
        | ok apiKey =>
        rw [h10] at h
        simp only [] at h
        cases h11 : joiValid "outputFormat" ["json", "text"] "json"
            (mapGet fields "outputFormat") with
        | error e => simp [h11] at h
        | ok outputFormat =>
        rw [h11] at h
        simp only [] at h
        cases h12 : unknownKey ["elasticsearchUrl", "index", "encryptionKey", "algorithm",
            "field", "query", "size", "username", "password", "apiKey", "outputFormat"]
            fields with
        | some k => simp [h12] at h
        | none =>
        rw [h12] at h
        simp only [Except.ok.injEq] at h
        rw [← h]
        exact ⟨rfl, rfl, rfl, rfl, rfl⟩
  | undefined => simp [decryptKibanaSchema] at h
  | null => simp [decryptKibanaSchema] at h
  | bool b => simp [decryptKibanaSchema] at h
  | num n => simp [decryptKibanaSchema] at h
  | str t => simp [decryptKibanaSchema] at h
  | arr items => simp [decryptKibanaSchema] at h

theorem length_flattenPairs (pairs : List (String × String)) :
    (flattenPairs pairs).length = 2 * pairs.length := by
  induction pairs with
  | nil => rfl
  | cons p rest ih =>
      obtain ⟨flag, value⟩ := p
      simp only [flattenPairs, List.length_cons, ih]
      omega

theorem flattenPairs_append (xs ys : List (String × String)) :
    flattenPairs (xs ++ ys) = flattenPairs xs ++ flattenPairs ys := by
  induction xs with
  | nil => rfl
  | cons p rest ih =>
      obtain ⟨flag, value⟩ := p
      simp [flattenPairs, ih]

theorem outputPath_injective (dirname a b : String)
    (h : outputPath dirname a = outputPath dirname b) : a = b := by
  unfold outputPath at h
  have h2 := congrArg String.data h
  simp only [String.data_append, List.append_assoc] at h2
  have h3 := List.append_cancel_left (List.append_cancel_left h2)
  have h4 := List.append_cancel_right h3
  exact String.ext h4

theorem kibanaArgs_eq (dirname : String) (stringify : JSValue → String) (t : KibanaTask)
    (hu : t.value.username ≠ some "") (hp : t.value.password ≠ some "")
    (hk : t.value.apiKey ≠ some "") :
    kibanaArgs dirname stringify t =
      flattenPairs
        ([("--elasticsearch-url", t.value.elasticsearchUrl), ("--index", t.value.index),
          ("--key", t.encryptionKey), ("--algorithm", t.value.algorithm),
          ("--field", t.value.field), ("--size", toString t.value.size),
          ("--format", t.value.outputFormat), ("--output", outputPath dirname t.jobId)] ++
         optionalPair "--username" t.value.username ++
         optionalPair "--password" t.value.password ++
         optionalPair "--api-key" t.value.apiKey ++
         optionalPair "--query" (t.value.query.map (fun q => stringify (.obj q)))) := by
  unfold kibanaArgs
  cases hu' : t.value.username with
  | none =>
      cases hp' : t.value.password with
      | none =>
          cases hk' : t.value.apiKey with
          | none => cases t.value.query <;> simp [optionalPair, flattenPairs]
          | some k =>
              have : k ≠ "" := fun e => hk (by rw [hk', e])
              cases t.value.query <;> simp [optionalPair, flattenPairs, this]
      | some p =>
          have hp2 : p ≠ "" := fun e => hp (by rw [hp', e])
          cases hk' : t.value.apiKey with
          | none => cases t.value.query <;> simp [optionalPair, flattenPairs, hp2]
          | some k =>
              have : k ≠ "" := fun e => hk (by rw [hk', e])
              cases t.value.query <;> simp [optionalPair, flattenPairs, this, hp2]
  | some u =>
      have hu2 : u ≠ "" := fun e => hu (by rw [hu', e])
      cases hp' : t.value.password with
      | none =>
          cases hk' : t.value.apiKey with
          | none => cases t.value.query <;> simp [optionalPair, flattenPairs, hu2]
          | some k =>
              have : k ≠ "" := fun e => hk (by rw [hk', e])
              cases t.value.query <;> simp [optionalPair, flattenPairs, this, hu2]
      | some p =>
          have hp2 : p ≠ "" := fun e => hp (by rw [hp', e])
          cases hk' : t.value.apiKey with
          | none => cases t.value.query <;> simp [optionalPair, flattenPairs, hp2, hu2]
          | some k =>
              have : k ≠ "" := fun e => hk (by rw [hk', e])
              cases t.value.query <;> simp [optionalPair, flattenPairs, this, hp2, hu2]

theorem outputPath_fileName (dirname jobId : String) :
    outputPath dirname jobId = outputDir dirname ++ "/" ++ jobId ++ ".json" := by
  unfold outputPath outputDir
  apply String.ext
  simp [String.data_append]

theorem postDecryptFile_task (users : UserStore) (jobs : JobStore) (jobId now : String)
    (req : FileRequest) (file : UploadedFile) (value : FileValue) (task : Task)
    (hfile : req.file = some file) (hvalue : decryptFileSchema req.body = .ok value)
    (htask : (postDecryptFile users jobs jobId now req).task = some task) :
    ∃ key, (if keyMissing value.encryptionKey then getEncryptionKey users req.username
        else value.encryptionKey) = some key ∧
      task = .file { jobId := jobId, filePath := file.path, encryptionKey := key,
                     algorithm := value.algorithm, field := value.field,
                     outputFormat := value.outputFormat } := by
  simp only [postDecryptFile, hfile, hvalue] at htask
  cases hr : (if keyMissing value.encryptionKey = true then getEncryptionKey users req.username
      else value.encryptionKey) with
  | none => simp [hr] at htask
  | some key =>
      simp only [hr, Option.some.injEq] at htask
      exact ⟨key, rfl, htask.symm⟩

theorem postDecryptKibana_task (joi : JoiLib) (users : UserStore) (jobs : JobStore)
    (jobId now : String) (req : KibanaRequest) (value : KibanaValue) (task : Task)
    (hvalue : decryptKibanaSchema joi req.body = .ok value)
    (htask : (postDecryptKibana joi users jobs jobId now req).task = some task) :
    ∃ key, (if keyMissing value.encryptionKey then getEncryptionKey users req.username
        else value.encryptionKey) = some key ∧
      task = .kibana { jobId := jobId, encryptionKey := key, value := value } := by
  simp only [postDecryptKibana, hvalue] at htask
  cases hr : (if keyMissing value.encryptionKey = true then getEncryptionKey users req.username
      else value.encryptionKey) with
  | none => simp [hr] at htask
  | some key =>
      simp only [hr, Option.some.injEq] at htask
      exact ⟨key, rfl, htask.symm⟩

/-- C11. Worker argument list, for every validated request that starts a
task. For an upload it is exactly the pairs `--file` (the upload path), `--key`
(the resolved key), `--algorithm`, `--field`, `--format`, `--output` (the output path),
in that order. For a Kibana request it is exactly the pairs `--elasticsearch-url`,
`--index`, `--key`, `--algorithm`, `--field`, `--size` (the size in decimal, between 1
and 10000), `--format`, `--output`, followed by `--username`, `--password`, `--api-key` and
`--query` (the query serialised as JSON), each present exactly when the request
supplied the field, in that order. Both lists have even length. The output
path is the output directory followed by `/<jobId>.json`, and different job ids
give different output paths. -/
theorem worker_arguments (joi : JoiLib) (users : UserStore) (jobs : JobStore)
    (jobId now : String) (env : TaskEnv)
    (freq : FileRequest) (file : UploadedFile) (fvalue : FileValue) (ftask : Task)
    (kreq : KibanaRequest) (kvalue : KibanaValue) (ktask : Task)
    (hfile : freq.file = some file)
    (hfvalue : decryptFileSchema freq.body = .ok fvalue)
    (hftask : (postDecryptFile users jobs jobId now freq).task = some ftask)
    (hkvalue : decryptKibanaSchema joi kreq.body = .ok kvalue)
    (hktask : (postDecryptKibana joi users jobs jobId now kreq).task = some ktask) :
    (∃ key, (if keyMissing fvalue.encryptionKey then getEncryptionKey users freq.username
        else fvalue.encryptionKey) = some key ∧
      ftask.args env =
        flattenPairs
          [("--file", file.path), ("--key", key), ("--algorithm", fvalue.algorithm),
           ("--field", fvalue.field), ("--format", fvalue.outputFormat),
           ("--output", outputPath env.dirname jobId)]) ∧
    (∃ key fields, kreq.body = .obj fields ∧
      (if keyMissing kvalue.encryptionKey then getEncryptionKey users kreq.username
        else kvalue.encryptionKey) = some key ∧
      ktask.args env =
        flattenPairs
          ([("--elasticsearch-url", kvalue.elasticsearchUrl), ("--index", kvalue.index),
            ("--key", key), ("--algorithm", kvalue.algorithm), ("--field", kvalue.field),
            ("--size", toString kvalue.size), ("--format", kvalue.outputFormat),
            ("--output", outputPath env.dirname jobId)] ++
           optionalPair "--username" kvalue.username ++
           optionalPair "--password" kvalue.password ++
           optionalPair "--api-key" kvalue.apiKey ++
           optionalPair "--query" (kvalue.query.map (fun q => env.jsonStringify (.obj q)))) ∧
      (kvalue.username.isSome = true ↔ supplied fields "username" = true) ∧
      (kvalue.password.isSome = true ↔ supplied fields "password" = true) ∧
      (kvalue.apiKey.isSome = true ↔ supplied fields "apiKey" = true) ∧
      (kvalue.query.isSome = true ↔ supplied fields "query" = true) ∧
      1 ≤ kvalue.size ∧ kvalue.size ≤ 10000) ∧
    (ftask.args env).length % 2 = 0 ∧
    (ktask.args env).length % 2 = 0 ∧
    (∀ dirname a b, outputPath dirname a = outputPath dirname b → a = b) ∧
    (∀ dirname id, outputPath dirname id = outputDir dirname ++ "/" ++ id ++ ".json") := by
  obtain ⟨fkey, hfkey, hft⟩ :=
    postDecryptFile_task users jobs jobId now freq file fvalue ftask hfile hfvalue hftask
  obtain ⟨kkey, hkkey, hkt⟩ :=
    postDecryptKibana_task joi users jobs jobId now kreq kvalue ktask hkvalue hktask
  obtain ⟨fields, hbody, hquery, hsize, huser, hpass, hapi⟩ :=
    decryptKibanaSchema_ok joi kreq.body kvalue hkvalue
  have hu := joiString_ok _ _ _ huser
  have hp := joiString_ok _ _ _ hpass
  have ha := joiString_ok _ _ _ hapi
  have hq := joiObject_ok _ _ _ hquery
  have hfargs : ftask.args env =
      flattenPairs
        [("--file", file.path), ("--key", fkey), ("--algorithm", fvalue.algorithm),
         ("--field", fvalue.field), ("--format", fvalue.outputFormat),
         ("--output", outputPath env.dirname jobId)] := by
    rw [hft]
    rfl
  have hkargs : ktask.args env =
      flattenPairs
        ([("--elasticsearch-url", kvalue.elasticsearchUrl), ("--index", kvalue.index),
          ("--key", kkey), ("--algorithm", kvalue.algorithm), ("--field", kvalue.field),
          ("--size", toString kvalue.size), ("--format", kvalue.outputFormat),
          ("--output", outputPath env.dirname jobId)] ++
         optionalPair "--username" kvalue.username ++
         optionalPair "--password" kvalue.password ++
         optionalPair "--api-key" kvalue.apiKey ++
         optionalPair "--query" (kvalue.query.map (fun q => env.jsonStringify (.obj q)))) := by
    rw [hkt]
    exact kibanaArgs_eq env.dirname env.jsonStringify
      { jobId := jobId, encryptionKey := kkey, value := kvalue } hu.1 hp.1 ha.1
  refine ⟨⟨fkey, hfkey, hfargs⟩,
    ⟨kkey, fields, hbody, hkkey, hkargs, hu.2, hp.2, ha.2, hq, joiSize_ok _ _ _ hsize⟩,
    ?_, ?_, outputPath_injective, outputPath_fileName⟩
  · rw [hfargs, length_flattenPairs]
    omega
  · rw [hkargs, length_flattenPairs]
    omega

/-- C11 at an upload and at a Kibana request with credentials, size and query. -/
theorem worker_arguments_witness :
    (sampleFileRequest []).file =
      some { path := "/srv/api/uploads/u1-logs.json", originalname := "logs.json" } ∧
    decryptFileSchema (sampleFileRequest []).body = .ok sampleFileValue ∧
    (postDecryptFile sampleUsers [] "j1" "2024-01-01T00:00:01.000Z"
      (sampleFileRequest [])).task = some sampleFileTask ∧
    decryptKibanaSchema sampleJoi sampleQueryRequest.body = .ok sampleQueryValue ∧
    (postDecryptKibana sampleJoi sampleUsers [] "j1" "2024-01-01T00:00:01.000Z"
      sampleQueryRequest).task = some sampleQueryTask ∧
    ((∃ key, (if keyMissing sampleFileValue.encryptionKey then
          getEncryptionKey sampleUsers (sampleFileRequest []).username
        else sampleFileValue.encryptionKey) = some key ∧
      sampleFileTask.args (sampleEnv cleanExit (.ok "[]")) =
        flattenPairs
          [("--file", "/srv/api/uploads/u1-logs.json"), ("--key", key),
           ("--algorithm", sampleFileValue.algorithm),
           ("--field", sampleFileValue.field), ("--format", sampleFileValue.outputFormat),
           ("--output", outputPath (sampleEnv cleanExit (.ok "[]")).dirname "j1")]) ∧
    (∃ key fields, sampleQueryRequest.body = .obj fields ∧
      (if keyMissing sampleQueryValue.encryptionKey then
          getEncryptionKey sampleUsers sampleQueryRequest.username
        else sampleQueryValue.encryptionKey) = some key ∧
      sampleQueryTask.args (sampleEnv cleanExit (.ok "[]")) =
        flattenPairs
          ([("--elasticsearch-url", sampleQueryValue.elasticsearchUrl),
            ("--index", sampleQueryValue.index),
            ("--key", key), ("--algorithm", sampleQueryValue.algorithm),
            ("--field", sampleQueryValue.field),
            ("--size", toString sampleQueryValue.size),
            ("--format", sampleQueryValue.outputFormat),
            ("--output", outputPath (sampleEnv cleanExit (.ok "[]")).dirname "j1")] ++
           optionalPair "--username" sampleQueryValue.username ++
           optionalPair "--password" sampleQueryValue.password ++
           optionalPair "--api-key" sampleQueryValue.apiKey ++
           optionalPair "--query" (sampleQueryValue.query.map
             (fun q => (sampleEnv cleanExit (.ok "[]")).jsonStringify (.obj q)))) ∧
      (sampleQueryValue.username.isSome = true ↔ supplied fields "username" = true) ∧
      (sampleQueryValue.password.isSome = true ↔ supplied fields "password" = true) ∧
      (sampleQueryValue.apiKey.isSome = true ↔ supplied fields "apiKey" = true) ∧
      (sampleQueryValue.query.isSome = true ↔ supplied fields "query" = true) ∧
      1 ≤ sampleQueryValue.size ∧ sampleQueryValue.size ≤ 10000) ∧
    (sampleFileTask.args (sampleEnv cleanExit (.ok "[]"))).length % 2 = 0 ∧
    (sampleQueryTask.args (sampleEnv cleanExit (.ok "[]"))).length % 2 = 0 ∧
    (∀ dirname a b, outputPath dirname a = outputPath dirname b → a = b) ∧
    (∀ dirname id, outputPath dirname id = outputDir dirname ++ "/" ++ id ++ ".json")) :=
  ⟨rfl, rfl, rfl, rfl, rfl,
    worker_arguments sampleJoi sampleUsers [] "j1" "2024-01-01T00:00:01.000Z"
      (sampleEnv cleanExit (.ok "[]")) (sampleFileRequest [])
      { path := "/srv/api/uploads/u1-logs.json", originalname := "logs.json" }
      sampleFileValue sampleFileTask sampleQueryRequest sampleQueryValue sampleQueryTask
      rfl rfl rfl rfl rfl⟩

/-! ## Profiles -/

/-- C12 fails on the code at a key of exactly twelve digits. The `PUT` handler
accepts and stores `0123456789ab`; `getRedactedKey` then returns the first eight
and the last four characters with nothing between them, so the profile has
no `passwordHash` and no `encryptionKey` property but its `encryptionKeyRedacted` is the
stored key itself. -/
theorem getUserProfile_twelve_digit_key :
    putEncryptionKey sampleUsers "admin" (.obj [("encryptionKey", .str "0123456789ab")])
        "2024-01-02T00:00:00.000Z" =
      ({ status := 200,
         body := .obj [("success", .bool true),
                       ("message", .str "Encryption key updated successfully"),
                       ("profile", .obj
                          [("username", .str "admin"), ("role", .str "admin"),
                           ("createdAt", .str "2024-01-01T00:00:00.000Z"),
                           ("updatedAt", .str "2024-01-02T00:00:00.000Z"),
                           ("hasEncryptionKey", .bool true),
                           ("encryptionKeyRedacted", .str "0123456789ab")])] },
       shortKeyUsers) ∧
    getEncryptionKey shortKeyUsers "admin" = some "0123456789ab" ∧
    getRedactedKey (some "0123456789ab") = some "0123456789ab" ∧
    getUserProfile shortKeyUsers "admin" =
      some [("username", .str "admin"), ("role", .str "admin"),
            ("createdAt", .str "2024-01-01T00:00:00.000Z"),
            ("updatedAt", .str "2024-01-02T00:00:00.000Z"),
            ("hasEncryptionKey", .bool true),
            ("encryptionKeyRedacted", .str "0123456789ab")] := by
  refine ⟨by rfl, by rfl, by rfl, by rfl⟩

theorem getRedactedKey_short (key : String) (h : jsLength key < 12) :
    getRedactedKey (some key) = none := by
  simp [getRedactedKey, h]

theorem getRedactedKey_long (key : String) (h : 12 ≤ jsLength key) :
    getRedactedKey (some key) =
      some (String.mk (key.toList.take 8) ++
        String.mk (List.replicate (min 32 (jsLength key - 12)) '*') ++
        String.mk (key.toList.drop (jsLength key - 4))) := by
  have hne : key ≠ "" := by
    intro he
    rw [he] at h
    exact absurd h (by decide)
  have hlt : ¬ jsLength key < 12 := by omega
  simp [getRedactedKey, hne, hlt]

theorem getRedactedKey_hides (key : String) (hhex : isHexKey key = true)
    (h : jsLength key ≠ 12) : getRedactedKey (some key) ≠ some key := by
  by_cases hs : jsLength key < 12
  · rw [getRedactedKey_short key hs]
    simp
  · have hl : 12 ≤ jsLength key := by omega
    rw [getRedactedKey_long key hl]
    intro heq
    have hd := congrArg String.data (Option.some.inj heq)
    simp only [String.data_append] at hd
    have hstar : '*' ∈ key.data := by
      rw [← hd]
      apply List.mem_append_left
      apply List.mem_append_right
      rw [List.mem_replicate]
      refine ⟨?_, rfl⟩
      have : 1 ≤ min 32 (jsLength key - 12) := by
        rw [Nat.le_min]
        omega
      omega
    unfold isHexKey at hhex
    rw [Bool.and_eq_true, List.all_eq_true] at hhex
    have := hhex.2 '*' hstar
    exact absurd this (by decide)

/-- What `getUserProfile` does guarantee, for every stored user: the profile has
no `passwordHash` and no `encryptionKey` property, `hasEncryptionKey` is true exactly
when a non-empty key is stored, the redaction of a key of at least twelve
units is its first eight characters, up to 32 stars, and its last four
characters, and the redaction of a hexadecimal key differs from the key
unless the key has exactly twelve digits. -/
theorem getUserProfile_contract (users : UserStore) (username : String) (user : User)
    (h : mapGet users username = some user) :
    ∃ profile, getUserProfile users username = some profile ∧
      mapGet profile "passwordHash" = none ∧
      mapGet profile "encryptionKey" = none ∧
      (mapGet profile "hasEncryptionKey" = some (.bool true) ↔
        ∃ key, user.encryptionKey = some key ∧ key ≠ "") ∧
      (∀ key, user.encryptionKey = some key → 12 ≤ jsLength key →
        mapGet profile "encryptionKeyRedacted" =
          some (.str (String.mk (key.toList.take 8) ++
            String.mk (List.replicate (min 32 (jsLength key - 12)) '*') ++
            String.mk (key.toList.drop (jsLength key - 4))))) ∧
      (∀ key, user.encryptionKey = some key → isHexKey key = true → jsLength key ≠ 12 →
        mapGet profile "encryptionKeyRedacted" ≠ some (.str key)) := by
  refine ⟨_, by simp only [getUserProfile, h]; rfl, ?_, ?_, ?_, ?_, ?_⟩
  · rw [mapGet_spread_two]
    simp [withoutKey, mapGet_mapDelete]
  · rw [mapGet_spread_two]
    simp [withoutKey, mapGet_mapDelete]
  · rw [mapGet_spread_two]
    cases hk : user.encryptionKey with
    | none => simp
    | some key => by_cases he : key = "" <;> simp [he]
  · intro key hk hl
    have hne : key ≠ "" := by
      intro he
      rw [he] at hl
      exact absurd hl (by decide)
    rw [mapGet_spread_two]
    simp [hk, hne, getRedactedKey_long key hl]
  · intro key hk hhex hlen
    have hne : key ≠ "" := by
      intro he
      rw [he] at hhex
      exact absurd hhex (by decide)
    rw [mapGet_spread_two]
    simp only [hk, hne, ne_eq, not_false_eq_true, decide_True, if_true]
    have hh := getRedactedKey_hides key hhex hlen
    cases hr : getRedactedKey (some key) with
    | none => simp
    | some redacted =>
        rw [hr] at hh
        simp only [↓reduceIte, ne_eq, Option.some.injEq, JSValue.str.injEq]
        intro he
        exact hh (by rw [he])

/-! ## The observed status sequence -/

theorem midRun_state : run sampleJoi (Sys.init sampleUsers) midRun = some midState := by
  rfl

theorem midState_step :
    step sampleJoi midState (.taskEnds "j1" (sampleEnv cleanExit (.ok "[]"))) =
      some midStateDone := by
  rfl

theorem mixedRun_observed :
    observed sampleJoi (Sys.init sampleUsers) mixedRun "j1" =
      [.str "processing", .str "processing", .str "processing", .str "processing",
       .str "completed"] ∧
    observed sampleJoi (Sys.init sampleUsers) mixedRun "j2" =
      [.str "processing", .str "failed", .str "failed", .str "failed", .str "failed"] := by
  exact ⟨rfl, rfl⟩

theorem hasStatus_iff (job : Obj) (status : String) :
    hasStatus job status = true ↔ mapGet job "status" = some (.str status) := by
  unfold hasStatus
  cases h : mapGet job "status" with
  | none => simp
  | some v => cases v <;> simp [JSValue.isStr]

theorem observed_cons (joi : JoiLib) (s s' : Sys) (a : Action) (rest : List Action)
    (jobId : String) (h : step joi s a = some s') :
    observed joi s (a :: rest) jobId =
      (statusAt s' jobId).toList ++ observed joi s' rest jobId := by
  unfold observed
  simp only [visited, h, List.filterMap_cons]
  cases statusAt s' jobId <;> rfl

theorem observed_cons_none (joi : JoiLib) (s : Sys) (a : Action) (rest : List Action)
    (jobId : String) (h : step joi s a = none) :
    observed joi s (a :: rest) jobId = [] := by
  unfold observed
  simp only [visited, h, List.filterMap_nil]

theorem step_get_settled (joi : JoiLib) (s s' : Sys) (a : Action) (id : String)
    (hiss : id ∈ s.issued) (hno : ∀ t ∈ s.tasks, t.jobId ≠ id)
    (h : step joi s a = some s') :
    mapGet s'.jobs id = mapGet s.jobs id ∨ mapGet s'.jobs id = none := by
  cases a with
  | createFile jobId now req =>
      simp only [step] at h
      by_cases hi : jobId ∈ s.issued
      · simp [hi] at h
      · rw [if_neg hi, Option.some.injEq] at h
        rw [← h, afterCreate_get s jobId id _ (fun he => hi (he ▸ hiss))
          (postDecryptFile_shape _ _ _ _ _)]
        exact Or.inl rfl
  | createKibana jobId now req =>
      simp only [step] at h
      by_cases hi : jobId ∈ s.issued
      · simp [hi] at h
      · rw [if_neg hi, Option.some.injEq] at h
        rw [← h, afterCreate_get s jobId id _ (fun he => hi (he ▸ hiss))
          (postDecryptKibana_shape _ _ _ _ _ _)]
        exact Or.inl rfl
  | taskEnds jobId env =>
      obtain ⟨task, hmem, hid, hcase⟩ := step_taskEnds joi s s' jobId env h
      rcases hcase with ⟨_, hs⟩ | ⟨_, w, _, hw, hs⟩
      · rw [hs]
        exact Or.inl rfl
      · have hne : id ≠ jobId := fun he => hno task hmem (by rw [hid, he])
        have hwid : w.jobId = jobId := by
          rcases hw with ⟨r, rfl⟩ | ⟨m, rfl⟩ <;> rfl
        rw [hs]
        left
        simp only [JobWrite.apply, hwid, mapGet_mapSet, if_neg hne]
  | deleteLookup jobId =>
      simp only [step] at h
      cases hl : deleteJobLookup s.jobs jobId with
      | some r =>
          rw [hl, Option.some.injEq] at h
          rw [← h]
          exact Or.inl rfl
      | none =>
          rw [hl, Option.some.injEq] at h
          rw [← h]
          exact Or.inl rfl
  | deleteCommit jobId =>
      simp only [step] at h
      by_cases hd : jobId ∈ s.deleting
      · rw [if_pos hd, Option.some.injEq] at h
        rw [← h]
        by_cases he : id = jobId
        · right
          simp [deleteJobCommit, mapGet_mapDelete, he]
        · left
          simp [deleteJobCommit, mapGet_mapDelete, he]
      · simp [hd] at h
  | updateKey username encryptionKey now =>
      simp only [step] at h
      cases hu : updateEncryptionKey s.users username encryptionKey now with
      | none =>
          rw [hu, Option.some.injEq] at h
          rw [← h]
          exact Or.inl rfl
      | some users =>
          rw [hu, Option.some.injEq] at h
          rw [← h]
          exact Or.inl rfl

theorem observed_settled (joi : JoiLib) (status : JSValue) (id : String)
    (actions : List Action) (s : Sys)
    (hiss : id ∈ s.issued) (hno : ∀ t ∈ s.tasks, t.jobId ≠ id)
    (hst : statusAt s id = none ∨ statusAt s id = some status) :
    ∃ n, observed joi s actions id = List.replicate n status := by
  induction actions generalizing s with
  | nil => exact ⟨0, rfl⟩
  | cons a rest ih =>
      cases hs : step joi s a with
      | none => exact ⟨0, observed_cons_none joi s a rest id hs⟩
      | some s' =>
          have htasks := step_tasks joi s s' a hs
          have hiss' : id ∈ s'.issued := htasks.2 id hiss
          have hno' : ∀ t ∈ s'.tasks, t.jobId ≠ id := by
            intro t ht
            rcases htasks.1 t ht with h1 | h1
            · exact hno t h1
            · exact fun he => h1 (he ▸ hiss)
          have hst' : statusAt s' id = none ∨ statusAt s' id = some status := by
            rcases step_get_settled joi s s' a id hiss hno hs with hg | hg
            · unfold statusAt at hst ⊢
              rw [hg]
              exact hst
            · left
              unfold statusAt
              rw [hg]
          obtain ⟨n, hn⟩ := ih s' hiss' hno' hst'
          rw [observed_cons joi s s' a rest id hs, hn]
          rcases hst' with h0 | h1
          · exact ⟨n, by rw [h0]; rfl⟩
          · exact ⟨n + 1, by rw [h1]; rfl⟩

theorem step_taskEnds_record (joi : JoiLib) (s s' : Sys) (jobId : String) (env : TaskEnv)
    (hinv : Inv s) (h : step joi s (.taskEnds jobId env) = some s') :
    ∃ task ∈ s.tasks, task.jobId = jobId ∧
      s'.jobs = (task.writes env).foldl JobWrite.apply s.jobs ∧
      ((task.ends env = false ∧ s' = s) ∨
       (task.ends env = true ∧ (∀ t ∈ s'.tasks, t.jobId ≠ jobId) ∧
        (mapGet s.jobs jobId = none ∨
          ∃ old, mapGet s.jobs jobId = some old ∧ hasStatus old "processing" = true) ∧
        ∃ status record, (status = "completed" ∨ status = "failed") ∧
          mapGet s'.jobs jobId = some record ∧
          mapGet record "status" = some (.str status) ∧
          isTerminal record = true ∧
          ∀ other, other ≠ jobId → mapGet s'.jobs other = mapGet s.jobs other)) := by
  obtain ⟨task, hmem, hid, hcase⟩ := step_taskEnds joi s s' jobId env h
  refine ⟨task, hmem, hid, ?_, ?_⟩
  · rcases hcase with ⟨he, hs'⟩ | ⟨he, w, hw, _, hs'⟩
    · have hshape := writes_shape env task
      have h0 : task.writes env = [] := by
        cases hws : task.writes env with
        | nil => rfl
        | cons w rest =>
            rw [hws] at hshape
            cases rest with
            | nil =>
                rw [hshape.2.1.mp rfl] at he
                exact absurd he (by decide)
            | cons w2 rest2 =>
                have := hshape.1
                simp at this
      rw [hs', h0]
      rfl
    · rw [hs', hw]
      rfl
  · rcases hcase with ⟨he, hs'⟩ | ⟨he, w, hw, hwshape, hs'⟩
    · exact Or.inl ⟨he, hs'⟩
    · right
      have hold : mapGet s.jobs jobId = none ∨
          ∃ old, mapGet s.jobs jobId = some old ∧ hasStatus old "processing" = true := by
        cases hg : mapGet s.jobs jobId with
        | none => exact Or.inl rfl
        | some old =>
            right
            have hno := (hinv.inflight task hmem).2 _ (mem_of_mapGet _ _ _ hg) hid.symm
            exact ⟨old, rfl, (noOutcome_fields old hno).1⟩
      have hwid : w.jobId = jobId := by
        rcases hwshape with ⟨r, rfl⟩ | ⟨m, rfl⟩ <;> rfl
      have hget : mapGet s'.jobs jobId = some (spreadOpt (mapGet s.jobs jobId) w.fields) := by
        rw [hs']
        simp only [JobWrite.apply, hwid, mapGet_mapSet, if_true]
      have hother : ∀ other, other ≠ jobId → mapGet s'.jobs other = mapGet s.jobs other := by
        intro other ho
        rw [hs']
        simp only [JobWrite.apply, hwid, mapGet_mapSet, if_neg ho]
      refine ⟨he, ?_, hold, ?_⟩
      · intro t ht
        rw [hs'] at ht
        simp only [List.mem_filter, Bool.not_eq_true', beq_eq_false_iff_ne, ne_eq] at ht
        exact ht.2
      · rcases hwshape with ⟨r, rfl⟩ | ⟨m, rfl⟩
        · refine ⟨"completed", _, Or.inl rfl, hget, ?_, ?_, hother⟩
          · unfold spreadOpt
            rw [mapGet_spread_completed]
            simp
          · exact isTerminal_spread_completed _ _ _ _
        · refine ⟨"failed", _, Or.inr rfl, hget, ?_, ?_, hother⟩
          · unfold spreadOpt
            rw [mapGet_spread_failed]
            simp
          · exact isTerminal_spread_failed _ _ _ _

theorem step_task_remains (joi : JoiLib) (s s' : Sys) (a : Action)
    (h : step joi s a = some s') (t : Task) (ht : t ∈ s.tasks) :
    t ∈ s'.tasks ∨ ∃ env, a = .taskEnds t.jobId env := by
  cases a with
  | createFile jobId now req =>
      simp only [step] at h
      by_cases hi : jobId ∈ s.issued
      · simp [hi] at h
      · rw [if_neg hi, Option.some.injEq] at h
        rw [← h]
        left
        simp only [Sys.afterCreate, List.mem_append]
        exact Or.inl ht
  | createKibana jobId now req =>
      simp only [step] at h
      by_cases hi : jobId ∈ s.issued
      · simp [hi] at h
      · rw [if_neg hi, Option.some.injEq] at h
        rw [← h]
        left
        simp only [Sys.afterCreate, List.mem_append]
        exact Or.inl ht
  | taskEnds jobId env =>
      obtain ⟨task, hmem, hid, hcase⟩ := step_taskEnds joi s s' jobId env h
      rcases hcase with ⟨_, hs⟩ | ⟨_, w, _, hw, hs⟩
      · rw [hs]
        exact Or.inl ht
      · by_cases he : t.jobId = jobId
        · exact Or.inr ⟨env, by rw [he]⟩
        · left
          rw [hs]
          simp only [List.mem_filter, Bool.not_eq_true', beq_eq_false_iff_ne, ne_eq]
          exact ⟨ht, he⟩
  | deleteLookup jobId =>
      simp only [step] at h
      cases hl : deleteJobLookup s.jobs jobId with
      | some r =>
          rw [hl, Option.some.injEq] at h
          rw [← h]
          exact Or.inl ht
      | none =>
          rw [hl, Option.some.injEq] at h
          rw [← h]
          exact Or.inl ht
  | deleteCommit jobId =>
      simp only [step] at h
      by_cases hd : jobId ∈ s.deleting
      · rw [if_pos hd, Option.some.injEq] at h
        rw [← h]
        exact Or.inl ht
      · simp [hd] at h
  | updateKey username encryptionKey now =>
      simp only [step] at h
      cases hu : updateEncryptionKey s.users username encryptionKey now with
      | none =>
          rw [hu, Option.some.injEq] at h
          rw [← h]
          exact Or.inl ht
      | some users =>
          rw [hu, Option.some.injEq] at h
          rw [← h]
          exact Or.inl ht

theorem statusAt_inflight (s : Sys) (hinv : Inv s) (t : Task) (ht : t ∈ s.tasks) :
    statusAt s t.jobId = none ∨ statusAt s t.jobId = some (.str "processing") := by
  unfold statusAt
  cases hg : mapGet s.jobs t.jobId with
  | none => exact Or.inl rfl
  | some job =>
      right
      have hno := (hinv.inflight t ht).2 _ (mem_of_mapGet _ _ _ hg) rfl
      exact (hasStatus_iff job "processing").mp (noOutcome_fields job hno).1

theorem observed_inflight (joi : JoiLib) (id : String) (actions : List Action) (s : Sys)
    (hinv : Inv s) (hfl : ∃ t ∈ s.tasks, t.jobId = id) :
    ∃ m n status, (status = "completed" ∨ status = "failed") ∧
      observed joi s actions id =
        List.replicate m (.str "processing") ++ List.replicate n (.str status) := by
  induction actions generalizing s with
  | nil => exact ⟨0, 0, "completed", Or.inl rfl, rfl⟩
  | cons a rest ih =>
      cases hs : step joi s a with
      | none => exact ⟨0, 0, "completed", Or.inl rfl, observed_cons_none joi s a rest id hs⟩
      | some s' =>
          have hinv' := inv_step joi s s' a hinv hs
          obtain ⟨t, ht, htid⟩ := hfl
          rw [observed_cons joi s s' a rest id hs]
          rcases step_task_remains joi s s' a hs t ht with hrem | ⟨env, ha⟩
          · obtain ⟨m, n, status, hterm, hobs⟩ := ih s' hinv' ⟨t, hrem, htid⟩
            rw [hobs]
            have hst := statusAt_inflight s' hinv' t hrem
            rw [htid] at hst
            rcases hst with h0 | h1
            · exact ⟨m, n, status, hterm, by rw [h0]; rfl⟩
            · exact ⟨m + 1, n, status, hterm, by rw [h1]; rfl⟩
          · rw [ha, htid] at hs
            obtain ⟨task, hmem, hid, _, hcase⟩ := step_taskEnds_record joi s s' id env hinv hs
            rcases hcase with ⟨_, hsame⟩ | ⟨_, hnone, _, status, record, hterm, hget, hstat, _, _⟩
            · have hrem : t ∈ s'.tasks := by rw [hsame]; exact ht
              obtain ⟨m, n, status, hterm, hobs⟩ := ih s' hinv' ⟨t, hrem, htid⟩
              rw [hobs]
              have hst := statusAt_inflight s' hinv' t hrem
              rw [htid] at hst
              rcases hst with h0 | h1
              · exact ⟨m, n, status, hterm, by rw [h0]; rfl⟩
              · exact ⟨m + 1, n, status, hterm, by rw [h1]; rfl⟩
            · have hst : statusAt s' id = some (.str status) := by
                unfold statusAt
                rw [hget]
                exact hstat
              have hiss : id ∈ s'.issued := by
                have := (hinv.inflight t ht).1
                rw [htid] at this
                exact (step_tasks joi s s' _ hs).2 id this
              obtain ⟨n, hn⟩ :=
                observed_settled joi (.str status) id rest s' hiss hnone (Or.inr hst)
              rw [hn, hst]
              exact ⟨0, n + 1, status, hterm, rfl⟩

theorem statusAt_fresh (s : Sys) (hinv : Inv s) (id : String) (hfresh : id ∉ s.issued) :
    statusAt s id = none := by
  unfold statusAt
  cases hg : mapGet s.jobs id with
  | none => rfl
  | some job => exact absurd (hinv.keys _ (mem_of_mapGet _ _ _ hg)) hfresh

theorem afterCreate_issues (s : Sys) (id : String) (c : Created) (hinv : Inv s)
    (hfresh : id ∉ s.issued)
    (hc : (c.jobs = s.jobs ∧ c.task = none) ∨
      ∃ record task, c.jobs = mapSet s.jobs id record ∧ c.task = some task ∧
        task.jobId = id ∧ noOutcome record = true ∧ recordOk record = true) :
    ((∃ t ∈ (s.afterCreate id c).tasks, t.jobId = id) ∧
      statusAt (s.afterCreate id c) id = some (.str "processing")) ∨
    (id ∈ (s.afterCreate id c).issued ∧ (∀ t ∈ (s.afterCreate id c).tasks, t.jobId ≠ id) ∧
      statusAt (s.afterCreate id c) id = none) := by
  rcases hc with ⟨hj, ht⟩ | ⟨record, task, hj, ht, hid, hno, _⟩
  · right
    refine ⟨List.mem_cons_self _ _, ?_, ?_⟩
    · intro t htm
      simp only [Sys.afterCreate, ht, Option.toList, List.append_nil] at htm
      exact fun he => hfresh (he ▸ (hinv.inflight t htm).1)
    · have := statusAt_fresh s hinv id hfresh
      unfold statusAt at this ⊢
      simp only [Sys.afterCreate, hj]
      exact this
  · left
    refine ⟨⟨task, ?_, hid⟩, ?_⟩
    · simp only [Sys.afterCreate, ht, Option.toList, List.mem_append]
      exact Or.inr (List.mem_singleton.mpr rfl)
    · unfold statusAt
      simp only [Sys.afterCreate, hj, mapGet_mapSet, if_true]
      exact (hasStatus_iff record "processing").mp (noOutcome_fields record hno).1

theorem step_issues (joi : JoiLib) (s s' : Sys) (a : Action) (id : String) (hinv : Inv s)
    (hfresh : id ∉ s.issued) (h : step joi s a = some s') :
    id ∉ s'.issued ∨
    ((∃ t ∈ s'.tasks, t.jobId = id) ∧ statusAt s' id = some (.str "processing")) ∨
    (id ∈ s'.issued ∧ (∀ t ∈ s'.tasks, t.jobId ≠ id) ∧ statusAt s' id = none) := by
  cases a with
  | createFile jobId now req =>
      simp only [step] at h
      by_cases hi : jobId ∈ s.issued
      · simp [hi] at h
      · rw [if_neg hi, Option.some.injEq] at h
        rw [← h]
        by_cases he : jobId = id
        · subst he
          exact Or.inr (afterCreate_issues s jobId _ hinv hfresh
            (postDecryptFile_shape _ _ _ _ _))
        · left
          simp only [Sys.afterCreate, List.mem_cons, not_or]
          exact ⟨fun e => he e.symm, hfresh⟩
  | createKibana jobId now req =>
      simp only [step] at h
      by_cases hi : jobId ∈ s.issued
      · simp [hi] at h
      · rw [if_neg hi, Option.some.injEq] at h
        rw [← h]
        by_cases he : jobId = id
        · subst he
          exact Or.inr (afterCreate_issues s jobId _ hinv hfresh
            (postDecryptKibana_shape _ _ _ _ _ _))
        · left
          simp only [Sys.afterCreate, List.mem_cons, not_or]
          exact ⟨fun e => he e.symm, hfresh⟩
  | taskEnds jobId env =>
      obtain ⟨task, hmem, hid, hcase⟩ := step_taskEnds joi s s' jobId env h
      rcases hcase with ⟨_, hs⟩ | ⟨_, w, _, hw, hs⟩
      · rw [hs]
        exact Or.inl hfresh
      · rw [hs]
        exact Or.inl hfresh
  | deleteLookup jobId =>
      simp only [step] at h
      cases hl : deleteJobLookup s.jobs jobId with
      | some r =>
          rw [hl, Option.some.injEq] at h
          rw [← h]
          exact Or.inl hfresh
      | none =>
          rw [hl, Option.some.injEq] at h
          rw [← h]
          exact Or.inl hfresh
  | deleteCommit jobId =>
      simp only [step] at h
      by_cases hd : jobId ∈ s.deleting
      · rw [if_pos hd, Option.some.injEq] at h
        rw [← h]
        exact Or.inl hfresh
      · simp [hd] at h
  | updateKey username encryptionKey now =>
      simp only [step] at h
      cases hu : updateEncryptionKey s.users username encryptionKey now with
      | none =>
          rw [hu, Option.some.injEq] at h
          rw [← h]
          exact Or.inl hfresh
      | some users =>
          rw [hu, Option.some.injEq] at h
          rw [← h]
          exact Or.inl hfresh

theorem observed_absent (joi : JoiLib) (id : String) (actions : List Action) (s : Sys)
    (hiss : id ∈ s.issued) (hno : ∀ t ∈ s.tasks, t.jobId ≠ id)
    (hst : statusAt s id = none) : observed joi s actions id = [] := by
  obtain ⟨n, hn⟩ := observed_settled joi (.str "completed") id actions s hiss hno (Or.inl hst)
  obtain ⟨k, hk⟩ := observed_settled joi (.str "failed") id actions s hiss hno (Or.inl hst)
  cases n with
  | zero => rw [hn]; rfl
  | succ n =>
      rw [hn] at hk
      cases k with
      | zero => simp [List.replicate] at hk
      | succ k =>
          simp only [List.replicate_succ, List.cons.injEq, JSValue.str.injEq] at hk
          exact absurd hk.1 (by decide)

theorem observed_fresh (joi : JoiLib) (id : String) (actions : List Action) (s : Sys)
    (hinv : Inv s) (hfresh : id ∉ s.issued) :
    observed joi s actions id = [] ∨
    ∃ m n status, (status = "completed" ∨ status = "failed") ∧
      observed joi s actions id =
        List.replicate (m + 1) (.str "processing") ++ List.replicate n (.str status) := by
  induction actions generalizing s with
  | nil => exact Or.inl rfl
  | cons a rest ih =>
      cases hs : step joi s a with
      | none => exact Or.inl (observed_cons_none joi s a rest id hs)
      | some s' =>
          have hinv' := inv_step joi s s' a hinv hs
          rw [observed_cons joi s s' a rest id hs]
          rcases step_issues joi s s' a id hinv hfresh hs with
            hstill | ⟨hfl, hst⟩ | ⟨hiss, hno, hst⟩
          · rw [statusAt_fresh s' hinv' id hstill]
            exact ih s' hinv' hstill
          · obtain ⟨m, n, status, hterm, hobs⟩ := observed_inflight joi id rest s' hinv' hfl
            right
            rw [hst, hobs]
            exact ⟨m, n, status, hterm, rfl⟩
          · left
            rw [hst, observed_absent joi id rest s' hiss hno hst]
            rfl

/-! ## Exactly one terminal transition, along every run -/

theorem getJob_status (stringify : JSValue → String) (s : Sys) (id : String) :
    (statusAt s id = none ∧ mapGet s.jobs id = none ∧
      getJob stringify s.jobs id = errorResponse 404 "Job not found") ∨
    (∃ fields, getJob stringify s.jobs id = { status := 200, body := .obj fields } ∧
      mapGet fields "status" = statusAt s id) := by
  unfold statusAt
  cases hg : mapGet s.jobs id with
  | none =>
      left
      exact ⟨rfl, rfl, by simp [getJob, hg]⟩
  | some job =>
      right
      refine ⟨_, by simp only [getJob, hg]; rfl, ?_⟩
      rw [mapGet_spread_two]
      simp [withoutKey, mapGet_mapDelete]

/-- C1. In every reachable state of the service, for both create handlers.
A background task performs at most one write to the job store, exactly one
when it runs to its end (worker resolved or rejected, artifact unreadable,
JSON unparsable, `mkdir` rejected; the upload cleanup cannot add one) and none
only while its worker has not terminated; the write is for the task's own
job and carries status `completed` or `failed`. When a task in flight ends, the
record it overwrites is absent or a `processing` one, the record stored under
its job id afterwards has status `completed` or `failed`, the records under all
other ids are unchanged, and no task for that job stays in flight. No step
changes a record whose status is `completed` or `failed`, except that a delete
removes it; no two tasks in flight share a job and a task that appears later
has a job id that had not been issued. Hence, over every run from start-up
and for every job id, the statuses that polls observe after each step are a
run of `processing` followed by a run of one terminal status (`completed` or
`failed`), a terminal status never being observed before `processing`. -/
theorem one_terminal_write (joi : JoiLib) (users : UserStore) (actions : List Action) (s : Sys)
    (h : run joi (Sys.init users) actions = some s) :
    (∀ (task : Task) (env : TaskEnv), (task.writes env).length ≤ 1 ∧
      ((task.writes env).length = 1 ↔ task.ends env = true) ∧
      (∀ w ∈ task.writes env, w.jobId = task.jobId ∧
        (mapGet w.fields "status" = some (.str "completed") ∨
          mapGet w.fields "status" = some (.str "failed")))) ∧
    (∀ task ∈ s.tasks, ∀ job, mapGet s.jobs task.jobId = some job →
      hasStatus job "processing" = true ∧ isTerminal job = false) ∧
    (∀ a s' jobId job, step joi s a = some s' → mapGet s.jobs jobId = some job →
      isTerminal job = true → mapGet s'.jobs jobId = some job ∨ mapGet s'.jobs jobId = none) ∧
    (∀ jobId env s', step joi s (.taskEnds jobId env) = some s' →
      ∃ task ∈ s.tasks, task.jobId = jobId ∧
        s'.jobs = (task.writes env).foldl JobWrite.apply s.jobs ∧
        ((task.ends env = false ∧ s' = s) ∨
         (task.ends env = true ∧ (∀ t ∈ s'.tasks, t.jobId ≠ jobId) ∧
          (mapGet s.jobs jobId = none ∨
            ∃ old, mapGet s.jobs jobId = some old ∧ hasStatus old "processing" = true) ∧
          ∃ status record, (status = "completed" ∨ status = "failed") ∧
            mapGet s'.jobs jobId = some record ∧
            mapGet record "status" = some (.str status) ∧
            isTerminal record = true ∧
            ∀ other, other ≠ jobId → mapGet s'.jobs other = mapGet s.jobs other))) ∧
    (s.tasks.map Task.jobId).Nodup ∧
    (∀ a s', step joi s a = some s' →
      (∀ t ∈ s'.tasks, t ∈ s.tasks ∨ t.jobId ∉ s.issued) ∧ (∀ id ∈ s.issued, id ∈ s'.issued)) ∧
    (∀ t ∈ s.tasks, t.jobId ∈ s.issued) ∧
    (∀ (whole : List Action) (id : String),
      observed joi (Sys.init users) whole id = [] ∨
      ∃ m n status, (status = "completed" ∨ status = "failed") ∧
        observed joi (Sys.init users) whole id =
          List.replicate (m + 1) (.str "processing") ++ List.replicate n (.str status)) ∧
    (∀ (stringify : JSValue → String) (id : String),
      (statusAt s id = none ∧ mapGet s.jobs id = none ∧
        getJob stringify s.jobs id = errorResponse 404 "Job not found") ∨
      (∃ fields, getJob stringify s.jobs id = { status := 200, body := .obj fields } ∧
        mapGet fields "status" = statusAt s id)) := by
  have hinv := inv_reachable joi users actions s h
  refine ⟨fun task env => writes_shape env task, ?_, ?_, ?_, hinv.distinct, ?_, ?_, ?_, ?_⟩
  · intro task ht job hg
    have hno := (hinv.inflight task ht).2 _ (mem_of_mapGet _ _ _ hg) rfl
    exact ⟨(noOutcome_fields job hno).1, noOutcome_not_terminal job hno⟩
  · intro a s' jobId job hs hg ht
    exact terminal_stable joi s s' a hinv hs jobId job hg ht
  · intro jobId env s' hs
    exact step_taskEnds_record joi s s' jobId env hinv hs
  · intro a s' hs
    exact step_tasks joi s s' a hs
  · intro t ht
    exact (hinv.inflight t ht).1
  · intro whole id
    exact observed_fresh joi id whole (Sys.init users) (inv_init users) (by simp [Sys.init])
  · intro stringify id
    exact getJob_status stringify s id

/-- C1 at a state with one job failed and one in flight; the task in flight
then ends and its record becomes `completed`, and the polls of a longer run
observe `processing` followed by one terminal status for each job. -/
theorem one_terminal_write_witness :
    run sampleJoi (Sys.init sampleUsers) midRun = some midState ∧
    ((∀ (task : Task) (env : TaskEnv), (task.writes env).length ≤ 1 ∧
      ((task.writes env).length = 1 ↔ task.ends env = true) ∧
      (∀ w ∈ task.writes env, w.jobId = task.jobId ∧
        (mapGet w.fields "status" = some (.str "completed") ∨
          mapGet w.fields "status" = some (.str "failed")))) ∧
    (∀ task ∈ midState.tasks, ∀ job, mapGet midState.jobs task.jobId = some job →
      hasStatus job "processing" = true ∧ isTerminal job = false) ∧
    (∀ a s' jobId job, step sampleJoi midState a = some s' →
      mapGet midState.jobs jobId = some job →
      isTerminal job = true → mapGet s'.jobs jobId = some job ∨ mapGet s'.jobs jobId = none) ∧
    (∀ jobId env s', step sampleJoi midState (.taskEnds jobId env) = some s' →
      ∃ task ∈ midState.tasks, task.jobId = jobId ∧
        s'.jobs = (task.writes env).foldl JobWrite.apply midState.jobs ∧
        ((task.ends env = false ∧ s' = midState) ∨
         (task.ends env = true ∧ (∀ t ∈ s'.tasks, t.jobId ≠ jobId) ∧
          (mapGet midState.jobs jobId = none ∨
            ∃ old, mapGet midState.jobs jobId = some old ∧
              hasStatus old "processing" = true) ∧
          ∃ status record, (status = "completed" ∨ status = "failed") ∧
            mapGet s'.jobs jobId = some record ∧
            mapGet record "status" = some (.str status) ∧
            isTerminal record = true ∧
            ∀ other, other ≠ jobId → mapGet s'.jobs other = mapGet midState.jobs other))) ∧
    (midState.tasks.map Task.jobId).Nodup ∧
    (∀ a s', step sampleJoi midState a = some s' →
      (∀ t ∈ s'.tasks, t ∈ midState.tasks ∨ t.jobId ∉ midState.issued) ∧
      (∀ id ∈ midState.issued, id ∈ s'.issued)) ∧
    (∀ t ∈ midState.tasks, t.jobId ∈ midState.issued) ∧
    (∀ (whole : List Action) (id : String),
      observed sampleJoi (Sys.init sampleUsers) whole id = [] ∨
      ∃ m n status, (status = "completed" ∨ status = "failed") ∧
        observed sampleJoi (Sys.init sampleUsers) whole id =
          List.replicate (m + 1) (.str "processing") ++ List.replicate n (.str status)) ∧
    (∀ (stringify : JSValue → String) (id : String),
      (statusAt midState id = none ∧ mapGet midState.jobs id = none ∧
        getJob stringify midState.jobs id = errorResponse 404 "Job not found") ∨
      (∃ fields, getJob stringify midState.jobs id = { status := 200, body := .obj fields } ∧
        mapGet fields "status" = statusAt midState id))) ∧
    step sampleJoi midState (.taskEnds "j1" (sampleEnv cleanExit (.ok "[]"))) =
      some midStateDone ∧
    statusAt midState "j1" = some (.str "processing") ∧
    statusAt midStateDone "j1" = some (.str "completed") ∧
    statusAt midStateDone "j2" = some (.str "failed") ∧
    observed sampleJoi (Sys.init sampleUsers) mixedRun "j1" =
      [.str "processing", .str "processing", .str "processing", .str "processing",
       .str "completed"] ∧
    observed sampleJoi (Sys.init sampleUsers) mixedRun "j2" =
      [.str "processing", .str "failed", .str "failed", .str "failed", .str "failed"] :=
  ⟨midRun_state, one_terminal_write sampleJoi sampleUsers midRun midState midRun_state,
    midState_step, rfl, rfl, rfl, mixedRun_observed.1, mixedRun_observed.2⟩

/-- C5 at an upload without explicit key from a user with a stored key (the
job is started) and at the same upload from a user unknown to the profile
store (the request is rejected and the store is unchanged). -/
theorem create_effect_witness :
    postDecryptFile sampleUsers [] "j1" "2024-01-01T00:00:01.000Z" (sampleFileRequest []) =
      { response := startedResponse "j1", jobs := sampleInFlight.jobs,
        task := some sampleFileTask } ∧
    postDecryptFile [] [] "j1" "2024-01-01T00:00:01.000Z" (sampleFileRequest []) =
      { response := errorResponse 400 noKeyMessage, jobs := [], task := none } ∧
    postDecryptKibana sampleJoi sampleUsers [] "j1" "2024-01-01T00:00:01.000Z"
        sampleQueryRequest =
      { response := startedResponse "j1",
        jobs := [("j1", [("id", .str "j1"), ("status", .str "processing"),
                         ("createdAt", .str "2024-01-01T00:00:01.000Z"),
                         ("source", .str "kibana"), ("index", .str "logs")])],
        task := some sampleQueryTask } :=
  ⟨(create_effect sampleStringify sampleJoi sampleUsers [] "j1" "2024-01-01T00:00:01.000Z"
      (sampleFileRequest []) sampleQueryRequest).2.2.2.2.2.2.2.2.1
      { path := "/srv/api/uploads/u1-logs.json", originalname := "logs.json" }
      sampleFileValue "00112233445566778899aabbccddeeff" rfl rfl rfl,
   (create_effect sampleStringify sampleJoi [] [] "j1" "2024-01-01T00:00:01.000Z"
      (sampleFileRequest []) sampleQueryRequest).2.2.2.2.2.2.2.2.2.1
      { path := "/srv/api/uploads/u1-logs.json", originalname := "logs.json" }
      sampleFileValue rfl rfl rfl,
   (create_effect sampleStringify sampleJoi sampleUsers [] "j1" "2024-01-01T00:00:01.000Z"
      (sampleFileRequest []) sampleQueryRequest).2.2.2.2.2.2.2.2.2.2.1
      sampleQueryValue "00112233445566778899aabbccddeeff" rfl rfl⟩

end LogginGenie
